import Mathlib

/-! Verification of the `dadit` YAML structural editor core (JSON Patch over a
tree-sitter style YAML concrete syntax tree), as a shallow embedding in Lean.

Modelling conventions, used throughout this file:

* All fixture documents are ASCII, so Python `str` and `bytes` are both
  modelled as `List Char`; the UTF-8 encode/decode steps of the source are the
  identity under this convention and are dropped.
* Python exceptions are modelled by the `Err` sum type and `Except Err`; an
  uncaught exception is an `Except.error` result.
* Recursive data (JSON values, syntax trees) is given by mutual inductives
  rather than nested `List`s, so that every function is structurally recursive
  and reduces by kernel computation; `ofList`/`toList` helpers bridge to
  ordinary lists. Traversals that walk a tree through cursor paths carry an
  explicit `fuel : Nat`; each public wrapper passes a fuel bound (from the
  tree's node count or the path length) that strictly exceeds the recursion
  depth, so the `fuelOut` branch is unreachable through the wrappers.
* IEEE-754 floats are outside the embedding (`float_scalar` nodes are mapped
  to an error and appear in no fixture); Python `int` is unbounded, matching
  `Int`.
* The tree-sitter YAML parser is an external dependency of the repository
  (spec section 1 places it out of scope); concrete syntax trees used as
  fixtures are modelled from the spec: section 6 fixes the node-type and field
  vocabulary and section 3 the node interface (byte ranges, rows, children,
  named flag, fields). Hidden tokens (e.g. trailing newlines of block
  constructs) extend a parent's byte range without appearing as children.
-/

/-! Basic text helpers shared by the embedded functions. -/
/-- Shorthand turning a Lean string literal into the `List Char` text model. -/
def lc (s : String) : List Char := s.data

/-- Horizontal whitespace, the class `[ \t]` used by the source's regexes. -/
def isPyWs (c : Char) : Bool := c == ' ' || c == '\t'

/-- The line-break characters of Python `str.splitlines`: `\n`, `\r`,
vertical tab (0x0b), form feed (0x0c), the file/group/record separators
0x1c-0x1e, NEL (0x85) and the Unicode line/paragraph separators 0x2028 and
0x2029. -/
def isLineBreak (c : Char) : Bool :=
  c == '\n' || c == '\x0d' || c.toNat == 0x0b || c.toNat == 0x0c
    || c.toNat == 0x1c || c.toNat == 0x1d || c.toNat == 0x1e
    || c.toNat == 0x85 || c.toNat == 0x2028 || c.toNat == 0x2029

/-- Python `str.splitlines`: break at every line-break character, with a
`\r\n` pair counting as one break; the empty string gives no lines, and a
trailing break does not produce a final empty line. -/
def splitlinesPy : List Char → List (List Char)
  | [] => []
  | c :: rest =>
    if c == '\x0d' then
      match rest with
      | c2 :: rest2 =>
        if c2 == '\n' then [] :: splitlinesPy rest2 else [] :: splitlinesPy (c2 :: rest2)
      | [] => [[]]
    else if isLineBreak c then [] :: splitlinesPy rest
    else
      match splitlinesPy rest with
      | [] => [[c]]
      | p :: ps => (c :: p) :: ps

/-- Python `str.removeprefix`. -/
def removeprefixPy (pre s : List Char) : List Char :=
  if pre.isPrefixOf s then s.drop pre.length else s

/-! The JSON data model (`dadit.json.JSON`): null, bool, int, str, list, dict
with insertion order. Floats are outside the embedding (no claim and no
fixture involves one). Mapping keys are strings, as in every value the editor
reads or writes. The list and entry spines are mutual inductives. -/
mutual
inductive JSON where
  | null
  | bool (b : Bool)
  | int (n : Int)
  | str (s : String)
  | arr (items : JSONList)
  | obj (entries : JSONEntries)
inductive JSONList where
  | nil
  | cons (head : JSON) (tail : JSONList)
inductive JSONEntries where
  | nil
  | cons (key : String) (value : JSON) (tail : JSONEntries)
end

def JSONList.ofList : List JSON → JSONList
  | [] => .nil
  | x :: xs => .cons x (JSONList.ofList xs)

def JSONList.toList : JSONList → List JSON
  | .nil => []
  | .cons x xs => x :: JSONList.toList xs

def JSONEntries.ofList : List (String × JSON) → JSONEntries
  | [] => .nil
  | e :: es => .cons e.1 e.2 (JSONEntries.ofList es)

def JSONEntries.toList : JSONEntries → List (String × JSON)
  | .nil => []
  | .cons k v es => (k, v) :: JSONEntries.toList es

/-- List-literal friendly constructor for JSON arrays. -/
def jarr (xs : List JSON) : JSON := .arr (JSONList.ofList xs)

/-- List-literal friendly constructor for JSON objects. -/
def jobj (es : List (String × JSON)) : JSON := .obj (JSONEntries.ofList es)

def JSONList.length : JSONList → Nat
  | .nil => 0
  | .cons _ xs => 1 + JSONList.length xs

def JSONEntries.length : JSONEntries → Nat
  | .nil => 0
  | .cons _ _ es => 1 + JSONEntries.length es

/-- Key lookup in a JSON object, Python `dict.__getitem__` style (first match;
embedded objects never carry duplicate keys). -/
def JSONEntries.lookup : JSONEntries → String → Option JSON
  | .nil, _ => none
  | .cons k v es, key => if k == key then some v else JSONEntries.lookup es key

/-- Python `dict` insertion: an existing key keeps its position and gets the
new value, a new key is appended. -/
def JSONEntries.upsert : JSONEntries → String → JSON → JSONEntries
  | .nil, key, v => .cons key v .nil
  | .cons k w es, key, v =>
    if k == key then .cons k v es else .cons k w (JSONEntries.upsert es key v)

/-- The six JSON Patch operations of `dadit.json_patch`, with pointers already
parsed to their segment lists (`JSONPointer.parts`). `from` being a reserved
word, the `from_` field is called `source`. -/
inductive JSONPatchOperation where
  | add (path : List String) (value : JSON)
  | remove (path : List String)
  | replace (path : List String) (value : JSON)
  | move (source : List String) (path : List String)
  | copy (source : List String) (path : List String)
  | test (path : List String) (value : JSON)

/-- Python exceptions raised by the embedded code. `testFailure` models the
`TestFailure` exception class, whose definition is absent from the sources in
`src/` (only imported and raised there); modelled from the spec: `TestFailure`
carries the offending operation and path. `recursionError` stands for a call
the source makes with unchanged arguments, which never returns (CPython raises
`RecursionError` when the stack limit is hit). `fuelOut` is the artefact of
the fuel discipline and is unreachable through the wrappers. -/
inductive Err where
  | valueError (msg : String)
  | indexError
  | keyError
  | typeError
  | attributeError
  | assertionError
  | recursionError
  | testFailure (op : JSONPatchOperation) (path : List String)
  | fuelOut

/-! Python structural equality `==` on JSON values: dict comparison ignores
entry order (it compares by key lookup), and `bool` compares equal to the
corresponding `int` because Python's `bool` is an `int` subtype. -/
mutual
def pyEq : JSON → JSON → Bool
  | .null, .null => true
  | .bool x, .bool y => x == y
  | .bool x, .int n => (if x then (1 : Int) else 0) == n
  | .int n, .bool x => n == (if x then (1 : Int) else 0)
  | .int x, .int y => x == y
  | .str x, .str y => x == y
  | .arr xs, .arr ys => xs.length == ys.length && pyEqList xs ys
  | .obj xs, .obj ys => xs.length == ys.length && pyEqEntries xs ys
  | _, _ => false
def pyEqList : JSONList → JSONList → Bool
  | .nil, _ => true
  | .cons _ _, .nil => false
  | .cons x xs, .cons y ys => pyEq x y && pyEqList xs ys
def pyEqEntries : JSONEntries → JSONEntries → Bool
  | .nil, _ => true
  | .cons k v es, other =>
    (match other.lookup k with
     | some w => pyEq v w
     | none => false) && pyEqEntries es other
end

/-- Lower-case hexadecimal digit, for `\uXXXX` escapes. -/
def hexDigit (n : Nat) : Char :=
  if n < 10 then Char.ofNat (48 + n) else Char.ofNat (97 + (n - 10))

/-- Escaping of a single character inside a JSON string literal, as
`json.dumps` does with its default `ensure_ascii=True` (fixtures stay within
the basic multilingual plane, so no surrogate pairs arise). -/
def jsonEscapeChar (c : Char) : List Char :=
  if c == '"' then ['\\', '"']
  else if c == '\\' then ['\\', '\\']
  else if c == '\n' then ['\\', 'n']
  else if c == '\r' then ['\\', 'r']
  else if c == '\t' then ['\\', 't']
  else if c.toNat == 8 then ['\\', 'b']
  else if c.toNat == 12 then ['\\', 'f']
  else if c.toNat < 32 || c.toNat > 126 then
    ['\\', 'u', hexDigit (c.toNat / 4096 % 16), hexDigit (c.toNat / 256 % 16),
      hexDigit (c.toNat / 16 % 16), hexDigit (c.toNat % 16)]
  else [c]

/-- JSON string literal serialization, shared by string values and object
keys. -/
def json_dumpsStr (s : String) : List Char :=
  '"' :: (s.data.flatMap jsonEscapeChar) ++ ['"']

/-! Python `json.dumps` (the `dumps` of `dadit.json`), with the default
separators `", "` and `": "`. -/
mutual
def json_dumps : JSON → List Char
  | .null => lc "null"
  | .bool true => lc "true"
  | .bool false => lc "false"
  | .int n => (toString n).data
  | .str s => json_dumpsStr s
  | .arr xs => '[' :: json_dumpsList xs ++ [']']
  | .obj es => '\x7b' :: json_dumpsEntries es ++ ['\x7d']
def json_dumpsList : JSONList → List Char
  | .nil => []
  | .cons x .nil => json_dumps x
  | .cons x xs => json_dumps x ++ lc ", " ++ json_dumpsList xs
def json_dumpsEntries : JSONEntries → List Char
  | .nil => []
  | .cons k v .nil => json_dumpsStr k ++ lc ": " ++ json_dumps v
  | .cons k v es => json_dumpsStr k ++ lc ": " ++ json_dumps v ++ lc ", " ++ json_dumpsEntries es
end

/-! The `Edit` variants of `dadit.tree_sitter.edit` and the edit applicator
`apply_edits`. Only the byte buffer of the `Document` is relevant to the
applicator (the stale parse tree it carries along is discarded by
`apply_patch`), so the embedding passes the text directly. -/
inductive Edit where
  | replace (start_byte : Nat) (end_byte : Nat) (content : List Char)
  | insert (start_byte : Nat) (content : List Char)
  | remove (start_byte : Nat) (end_byte : Nat)

/-- The sort key of `apply_edits` (`edit.start_byte`). -/
def Edit.startByte : Edit → Nat
  | .replace s _ _ => s
  | .insert s _ => s
  | .remove s _ => s

/-- The end of the spliced-out range: for inserts this coincides with the
start byte (nothing is removed). -/
def Edit.endByte : Edit → Nat
  | .replace _ e _ => e
  | .insert s _ => s
  | .remove _ e => e

/-- The bytes spliced in: empty for removals. -/
def Edit.content : Edit → List Char
  | .replace _ _ c => c
  | .insert _ c => c
  | .remove _ _ => []

/-- Stable insertion of an edit into a list already sorted by descending start
byte: the new edit goes after all strictly larger starts and before equal
ones it precedes. -/
def insertDesc (e : Edit) : List Edit → List Edit
  | [] => [e]
  | x :: xs => if e.startByte < x.startByte then x :: insertDesc e xs else e :: x :: xs

/-- Stable sort by descending start byte, the exact ordering produced by
Python's stable `edits.sort(key=lambda e: e.start_byte, reverse=True)`. -/
def sortDesc : List Edit → List Edit
  | [] => []
  | x :: xs => insertDesc x (sortDesc xs)

/-- One step of the applicator's fold: splice a single edit into the buffer
(`text[:start] + content + text[end:]` for each of the three variants). -/
def spliceStep (doc : List Char) (e : Edit) : List Char :=
  match e with
  | .replace s en content => doc.take s ++ content ++ doc.drop en
  | .insert s content => doc.take s ++ content ++ doc.drop s
  | .remove s en => doc.take s ++ doc.drop en

/-- The edit applicator `apply_edits`: stable-sort the edits by descending
start byte, then fold over them, each step splicing one edit into the buffer
at its original offsets. -/
def apply_edits (text : List Char) (edits : List Edit) : List Char :=
  (sortDesc edits).foldl spliceStep text

/-- Reference meaning of simultaneous edit application: given edits listed in
ascending start order, emit the untouched segment before each edit, then its
replacement content, and finally the untouched tail. All offsets refer to the
original buffer. -/
def substFrom (text : List Char) : Nat → List Edit → List Char
  | pos, [] => text.drop pos
  | pos, e :: rest =>
    (text.drop pos).take (e.startByte - pos) ++ e.content ++ substFrom text e.endByte rest

/-- Pairwise compatibility of two edits as the spec's non-overlap invariant
states it: the `[start, end)` ranges of replace/remove edits are disjoint, and
an insert position does not fall strictly inside any replace/remove range. -/
def editCompatB (a b : Edit) : Bool :=
  match a, b with
  | .insert _ _, .insert _ _ => true
  | .insert p _, b => !(decide (b.startByte < p) && decide (p < b.endByte))
  | a, .insert q _ => !(decide (a.startByte < q) && decide (q < a.endByte))
  | a, b => decide (a.endByte ≤ b.startByte) || decide (b.endByte ≤ a.startByte)

/-- The spec's edit non-overlap invariant over a whole edit list. -/
def nonOverlapB : List Edit → Bool
  | [] => true
  | e :: rest => rest.all (editCompatB e) && nonOverlapB rest

/-! The concrete syntax tree model. A `RawTree` carries the node type, the
named flag, the field name linking it to its parent, byte offsets `[start,
end)` into the source, the start row, and the children (all of them, anonymous
tokens included, in source order). Hidden tokens contribute to the parent's
byte range without appearing as children, as in tree-sitter. -/
mutual
inductive RawTree where
  | mk (typ : String) (named : Bool) (fld : Option String)
       (startB : Nat) (endB : Nat) (row : Nat) (kids : RawKids)
inductive RawKids where
  | nil
  | cons (head : RawTree) (tail : RawKids)
end

def RawKids.ofList : List RawTree → RawKids
  | [] => .nil
  | t :: ts => .cons t (RawKids.ofList ts)

def RawKids.toList : RawKids → List RawTree
  | .nil => []
  | .cons t ts => t :: RawKids.toList ts

def RawKids.get? : RawKids → Nat → Option RawTree
  | .nil, _ => none
  | .cons t _, 0 => some t
  | .cons _ ts, n+1 => RawKids.get? ts n

/-- Fixture-building helper: node from a children list. -/
def nd (typ : String) (named : Bool) (fld : Option String)
    (startB endB row : Nat) (kids : List RawTree) : RawTree :=
  .mk typ named fld startB endB row (RawKids.ofList kids)

def RawTree.typ : RawTree → String
  | .mk t _ _ _ _ _ _ => t

def RawTree.named : RawTree → Bool
  | .mk _ n _ _ _ _ _ => n

def RawTree.fld : RawTree → Option String
  | .mk _ _ f _ _ _ _ => f

def RawTree.startB : RawTree → Nat
  | .mk _ _ _ s _ _ _ => s

def RawTree.endB : RawTree → Nat
  | .mk _ _ _ _ e _ _ => e

def RawTree.row : RawTree → Nat
  | .mk _ _ _ _ _ r _ => r

def RawTree.kids : RawTree → RawKids
  | .mk _ _ _ _ _ _ ks => ks

/-! Node count, the fuel bound for descending traversals (recursion depth is
at most the node count). -/
mutual
def RawTree.size : RawTree → Nat
  | .mk _ _ _ _ _ _ ks => 1 + RawKids.size ks
def RawKids.size : RawKids → Nat
  | .nil => 0
  | .cons t ts => RawTree.size t + RawKids.size ts
end

/-- Placeholder for an out-of-range cursor; it has an unknown node type and no
children, so every embedded function rejects it. No cursor built by the
embedded code from a valid cursor is out of range. -/
def dummyTree : RawTree := .mk "" false none 0 0 0 .nil

/-- Subtree lookup along a child-index path. -/
def subAt : RawTree → List Nat → Option RawTree
  | t, [] => some t
  | t, i :: p =>
    match t.kids.get? i with
    | some k => subAt k p
    | none => none

/-- A parsed document: the source bytes plus the tree (the `Document` of
`dadit.tree_sitter.document`, without the parser handle). -/
structure Doc where
  src : List Char
  tree : RawTree

/-- A tree-sitter `Node` is modelled as a cursor: the document plus the
child-index path from the root, which supports parent and sibling
navigation. -/
structure Cur where
  d : Doc
  path : List Nat

/-- Cursor equality is path equality; the embedded code only ever compares
nodes of one document. -/
instance : BEq Cur := ⟨fun a b => a.path == b.path⟩

def Cur.node (c : Cur) : RawTree := (subAt c.d.tree c.path).getD dummyTree

def Cur.nodeType (c : Cur) : String := c.node.typ

def Cur.startByte (c : Cur) : Nat := c.node.startB

def Cur.endByte (c : Cur) : Nat := c.node.endB

/-- Python `row_of` reads `node.start_point[0]`. -/
def Cur.row (c : Cur) : Nat := c.node.row

/-- Python `node.text`: the byte slice of the source covered by the node. -/
def Cur.text (c : Cur) : List Char :=
  (c.d.src.drop c.startByte).take (c.endByte - c.startByte)

def Cur.children (c : Cur) : List Cur :=
  (List.range c.node.kids.toList.length).map (fun i => ⟨c.d, c.path ++ [i]⟩)

def Cur.namedChildren (c : Cur) : List Cur :=
  c.children.filter (fun k => k.node.named)

/-- Python `node.named_child(i)` (`None` when out of range). -/
def Cur.namedChild (c : Cur) (i : Nat) : Option Cur := c.namedChildren.get? i

def Cur.parent (c : Cur) : Option Cur :=
  if c.path.isEmpty then none else some ⟨c.d, c.path.dropLast⟩

def Cur.prevSibling (c : Cur) : Option Cur :=
  match c.path.getLast? with
  | none => none
  | some i => if i = 0 then none else some ⟨c.d, c.path.dropLast ++ [i - 1]⟩

def Cur.nextSibling (c : Cur) : Option Cur :=
  match c.path.getLast? with
  | none => none
  | some i =>
    let parentKids := ((subAt c.d.tree c.path.dropLast).getD dummyTree).kids.toList.length
    if i + 1 < parentKids then some ⟨c.d, c.path.dropLast ++ [i + 1]⟩ else none

/-- Python `node.children_by_field_name(f)`. -/
def Cur.childrenByFieldName (c : Cur) (f : String) : List Cur :=
  c.children.filter (fun k => k.node.fld == some f)

/-- Python `node.child_by_field_name(f)`: the first child carrying the field,
or `None`. -/
def Cur.childByFieldName (c : Cur) (f : String) : Option Cur :=
  c.children.find? (fun k => k.node.fld == some f)

/-! Selector helpers of `dadit.tree_sitter.selector`, specialised to the
compositions the editor uses. `single` and `optional` raise `ValueError` on
unexpected cardinality; `union` produces a set, modelled as left-biased
deduplication (every consumer either takes a unique element or tests
emptiness, so the iteration order of the set is immaterial). -/
def typeFilter (t : String) (cs : List Cur) : List Cur :=
  cs.filter (fun c => c.nodeType == t)

def dedupCurAux : List Cur → List (List Nat) → List Cur
  | [], _ => []
  | x :: xs, seen =>
    if seen.contains x.path then dedupCurAux xs seen
    else x :: dedupCurAux xs (x.path :: seen)

def dedupCur (cs : List Cur) : List Cur := dedupCurAux cs []

def singleE : List Cur → Except Err Cur
  | [x] => .ok x
  | [] => .error (.valueError "Expected a single node, got none")
  | _ => .error (.valueError "Expected a single node, got more than one")

def optionalE : List Cur → Except Err (Option Cur)
  | [x] => .ok (some x)
  | [] => .ok none
  | _ => .error (.valueError "Expected a single node, got more than one")

/-- The `previous_node` selector: the previous sibling if there is one, else
the previous node of the parent, transitively. Fuel is the path length, which
bounds the ascent. -/
def previous_nodeF : Nat → Cur → List Cur
  | 0, _ => []
  | fuel+1, c =>
    match c.prevSibling with
    | some p => [p]
    | none =>
      match c.parent with
      | some p => previous_nodeF fuel p
      | none => []

def previous_node (c : Cur) : List Cur := previous_nodeF (c.path.length + 1) c

/-! The value reader of `dadit.yaml.parse`. -/
/-- Python `int(...)` on a string: optional sign followed by decimal digits
(the source only applies it to scalar texts and pointer segments; whitespace
trimming and underscore separators are not exercised and not modelled). -/
def pyIntL (cs : List Char) : Except Err Int :=
  let signDigits : Bool × List Char :=
    match cs with
    | '-' :: rest => (true, rest)
    | '+' :: rest => (false, rest)
    | _ => (false, cs)
  match signDigits with
  | (neg, ds) =>
    if !ds.isEmpty && ds.all (fun c => c.isDigit) then
      let n : Nat := ds.foldl (fun a c => a * 10 + (c.toNat - 48)) 0
      .ok (if neg then -(n : Int) else (n : Int))
    else .error (.valueError "invalid literal for int")

def pyInt (s : String) : Except Err Int := pyIntL s.data

/-- The `parse_boolean` of `dadit.yaml.parse`. -/
def parse_boolean (value : List Char) : Except Err Bool :=
  if value == lc "true" || value == lc "True" || value == lc "TRUE" then .ok true
  else if value == lc "false" || value == lc "False" || value == lc "FALSE" then .ok false
  else .error (.valueError "Invalid boolean value")

/-- The `unescape_single_quoted` of `dadit.yaml.parse`: replace each `''` pair
by a single quote, scanning left to right. -/
def unescape_single_quoted : List Char → List Char
  | [] => []
  | [c] => [c]
  | c :: c2 :: rest =>
    if c == Char.ofNat 39 && c2 == Char.ofNat 39
    then Char.ofNat 39 :: unescape_single_quoted rest
    else c :: unescape_single_quoted (c2 :: rest)

def isAlnumPy (c : Char) : Bool := c.isDigit || c.isAlpha

def hexValue (c : Char) : Except Err Nat :=
  if c.isDigit then .ok (c.toNat - 48)
  else if 97 ≤ c.toNat && c.toNat ≤ 102 then .ok (c.toNat - 87)
  else if 65 ≤ c.toNat && c.toNat ≤ 70 then .ok (c.toNat - 55)
  else .error (.valueError "invalid hex digit")

/-- Handler for a single-character escape group (`unescape_double_quoted`'s
fallback alternative `.`): named escapes expand, `x`/`u`/`U` with too few
alphanumerics behind them make the handler call `int("", 16)`, a
`ValueError`; anything else stands for itself. -/
def escDot (c : Char) : Except Err (List Char) :=
  if c == 'n' then .ok [Char.ofNat 10]
  else if c == 'r' then .ok [Char.ofNat 13]
  else if c == 't' then .ok [Char.ofNat 9]
  else if c == 'b' then .ok [Char.ofNat 8]
  else if c == 'f' then .ok [Char.ofNat 12]
  else if c == 'v' then .ok [Char.ofNat 11]
  else if c == '0' then .ok [Char.ofNat 0]
  else if c == 'x' || c == 'u' || c == 'U' then .error (.valueError "invalid literal for int")
  else .ok [c]

/-- One escape sequence after a backslash: the regex alternation
`x[0-9a-zA-Z]{2} | u[0-9a-zA-Z]{4} | U[0-9a-zA-Z]{4} | .` of
`unescape_double_quoted`, returning the expansion and the remaining input. A
backslash at the end of the text matches nothing and stays. -/
def escSeq : List Char → Except Err (List Char × List Char)
  | [] => .ok (['\\'], [])
  | c :: cs =>
    if c == 'x' then
      match cs with
      | a :: b :: cs2 =>
        if isAlnumPy a && isAlnumPy b then do
          let ha ← hexValue a
          let hb ← hexValue b
          .ok ([Char.ofNat (16 * ha + hb)], cs2)
        else do
          let e ← escDot c
          .ok (e, cs)
      | _ => do
        let e ← escDot c
        .ok (e, cs)
    else if c == 'u' || c == 'U' then
      match cs with
      | a :: b :: d :: e :: cs2 =>
        if isAlnumPy a && isAlnumPy b && isAlnumPy d && isAlnumPy e then do
          let ha ← hexValue a
          let hb ← hexValue b
          let hd ← hexValue d
          let he ← hexValue e
          .ok ([Char.ofNat (4096 * ha + 256 * hb + 16 * hd + he)], cs2)
        else do
          let x ← escDot c
          .ok (x, cs)
      | _ => do
        let x ← escDot c
        .ok (x, cs)
    else do
      let x ← escDot c
      .ok (x, cs)

def unescape_double_quotedF : Nat → List Char → Except Err (List Char)
  | 0, _ => .error .fuelOut
  | _, [] => .ok []
  | fuel+1, c :: rest =>
    if c == '\\' then do
      let er ← escSeq rest
      let tail ← unescape_double_quotedF fuel er.2
      .ok (er.1 ++ tail)
    else do
      let tail ← unescape_double_quotedF fuel rest
      .ok (c :: tail)

/-- The `unescape_double_quoted` of `dadit.yaml.parse`. -/
def unescape_double_quoted (s : List Char) : Except Err (List Char) :=
  unescape_double_quotedF (s.length + 1) s

/-- Everything before the first newline, and everything after it. -/
def splitFirstNl : List Char → Option (List Char × List Char)
  | [] => none
  | c :: rest =>
    if c == '\n' then some ([], rest)
    else (splitFirstNl rest).map (fun p => (c :: p.1, p.2))

/-- The header match of `parse_scalar_block`: the source regex
`^([\\|>]-?)[^\n]*\n([ \t]*)` (one of `\`, `|`, `>`, optionally followed by
`-`; the rest of the first line is ignored; a newline must follow; the
horizontal whitespace after it is the captured indentation). Returns the
style, the captured indentation, and the text from the start of the
indentation on (which is exactly `block[len(group0) - len(group2):]`). -/
def headerMatch (block : List Char) : Option (List Char × List Char × List Char) :=
  match block with
  | [] => none
  | c :: rest =>
    if c == '\\' || c == '|' || c == '>' then
      let styleRest : List Char × List Char :=
        match rest with
        | c2 :: rest3 => if c2 == '-' then ([c, '-'], rest3) else ([c], rest)
        | [] => ([c], rest)
      match splitFirstNl styleRest.2 with
      | some p => some (styleRest.1, p.2.takeWhile isPyWs, p.2)
      | none => none
    else none

/-- The `parse_scalar_block` of `dadit.yaml.parse`: match the header, strip
the captured indentation from every line, then join according to the style. -/
def parse_scalar_block (block : List Char) : Except Err (List Char) :=
  match headerMatch block with
  | none => .error (.valueError "Invalid block scalar")
  | some (style, indentation, after) =>
    let lines := (splitlinesPy after).map (fun l => removeprefixPy indentation l)
    if style == lc "|" then .ok (List.intercalate (lc "\n") lines ++ lc "\n")
    else if style == lc ">" then .ok (List.intercalate (lc " ") lines ++ lc "\n")
    else if style == lc "|-" then .ok (List.intercalate (lc "\n") lines)
    else if style == lc ">-" then .ok (List.intercalate (lc " ") lines)
    else .error (.valueError "Invalid block scalar style")

/-- Fueled body of the value reader `parse_node` of `dadit.yaml.parse`,
dispatching on the node type. Fuel decreases on every descent; the wrapper's
bound (the subtree node count) exceeds the depth. -/
def parse_nodeF : Nat → Cur → Except Err JSON
  | 0, _ => .error .fuelOut
  | fuel+1, c =>
    match c.nodeType with
    | "block_mapping" => do
      let pairs := typeFilter "block_mapping_pair" c.children
      let entries ← pairs.foldlM (fun (acc : JSONEntries) pair => do
        let key ← match pair.childByFieldName "key" with
          | some k => parse_nodeF fuel k
          | none => .error Err.attributeError
        let val ← match pair.childByFieldName "value" with
          | some v => parse_nodeF fuel v
          | none => .error Err.attributeError
        match key with
        | .str s => pure (acc.upsert s val)
        | _ => .error (.valueError "non-string mapping key unsupported in the embedding")) JSONEntries.nil
      .ok (.obj entries)
    | "block_sequence" => do
      let items ← (typeFilter "block_sequence_item" c.children).mapM (fun k => parse_nodeF fuel k)
      .ok (.arr (JSONList.ofList items))
    | "flow_mapping" => do
      let pairs := typeFilter "flow_pair" c.children
      let entries ← pairs.foldlM (fun (acc : JSONEntries) pair => do
        let key ← match pair.childByFieldName "key" with
          | some k => parse_nodeF fuel k
          | none => .error Err.attributeError
        let val ← match pair.childByFieldName "value" with
          | some v => parse_nodeF fuel v
          | none => .error Err.attributeError
        match key with
        | .str s => pure (acc.upsert s val)
        | _ => .error (.valueError "non-string mapping key unsupported in the embedding")) JSONEntries.nil
      .ok (.obj entries)
    | "flow_sequence" => do
      let items ← (typeFilter "flow_node" c.children).mapM (fun k => parse_nodeF fuel k)
      .ok (.arr (JSONList.ofList items))
    | "document" | "stream" | "block_node" | "flow_node" | "flow_scalar"
    | "plain_scalar" | "block_sequence_item" => do
      let n ← singleE c.namedChildren
      parse_nodeF fuel n
    | "null_scalar" => .ok .null
    | "boolean_scalar" => do
      let b ← parse_boolean c.text
      .ok (.bool b)
    | "integer_scalar" => do
      let n ← pyIntL c.text
      .ok (.int n)
    | "float_scalar" => .error (.valueError "float_scalar outside the embedding")
    | "string_scalar" => .ok (.str c.text.asString)
    | "double_quote_scalar" => do
      let u ← unescape_double_quoted ((c.text.drop 1).dropLast)
      .ok (.str u.asString)
    | "single_quote_scalar" => .ok (.str (unescape_single_quoted ((c.text.drop 1).dropLast)).asString)
    | "block_scalar" => do
      let s ← parse_scalar_block c.text
      .ok (.str s.asString)
    | other => .error (.valueError ("Unsupported node type " ++ other))

/-- The value reader `parse_node`, with fuel bound. -/
def parse_node (c : Cur) : Except Err JSON := parse_nodeF (c.node.size + 1) c

/-! The patch compiler of `dadit.yaml.edit`. -/
def default_indentation : List Char := lc "  "

/-- Ascend from the node while the prefix of the current ancestor before the
original start byte contains no newline (the loop heads of `get_indentation`
and `get_block_indentation`). Fuel is the path length. -/
def climbNoNewlineF : Nat → Nat → Cur → Cur
  | 0, _, c => c
  | fuel+1, startB, c =>
    if (c.text.take (startB - c.startByte)).contains '\n' then c
    else
      match c.parent with
      | some p => climbNoNewlineF fuel startB p
      | none => c

/-- The text after the last newline of `s` (all of `s` when it has none). -/
def afterLastNl (s : List Char) : List Char :=
  (s.reverse.takeWhile (fun c => !(c == '\n'))).reverse

/-- One anchored attempt of the regex `(?:^|\n)([ \t]*)([^ \t\n\r][^\n]*)?$`
on a newline-free line: the greedy `[ \t]*` captures the horizontal
indentation, and the optional body group matches exactly when the remainder is
nonempty and does not start with a carriage return (otherwise no backtracking
split of the whitespace can reach the end anchor, and the attempt fails). -/
def lineAttempt (t : List Char) : Option (List Char × Option (List Char)) :=
  let ind := t.takeWhile isPyWs
  let rest := t.drop ind.length
  match rest with
  | [] => some (ind, none)
  | r :: _ => if r == '\x0d' then none else some (ind, some rest)

/-- `re.search` of `(?:^|\n)([ \t]*)([^ \t\n\r][^\n]*)?$` in a prefix text.
Neither group can cross a newline, so a match runs from a line start to the
end anchor `$`, which Python places at the end of the text and also just
before a final trailing newline. The leftmost match is therefore the attempt
on the last line before a trailing newline when there is one and the attempt
succeeds; the fallbacks are the empty match right after that trailing
newline, respectively the attempt on the unterminated last line. -/
def lastLineMatch (s : List Char) : Option (List Char × Option (List Char)) :=
  if s.getLast? == some '\n' then
    match lineAttempt (afterLastNl s.dropLast) with
    | some p => some p
    | none => some ([], none)
  else lineAttempt (afterLastNl s)

/-- The `get_indentation` of `dadit.yaml.edit`: whitespace prefix of the last
line before the node. -/
def get_indentation (c : Cur) : List Char :=
  let top := climbNoNewlineF (c.path.length + 1) c.startByte c
  let pref := top.text.take (c.startByte - top.startByte)
  match lastLineMatch pref with
  | some p => p.1
  | none => []

/-- The `get_block_indentation` of `dadit.yaml.edit`: as `get_indentation`,
but one indent step deeper when the last line's text starts with a sequence
bullet `-`. -/
def get_block_indentation (c : Cur) : List Char :=
  let top := climbNoNewlineF (c.path.length + 1) c.startByte c
  let pref := top.text.take (c.startByte - top.startByte)
  match lastLineMatch pref with
  | some (ind, none) => ind
  | some (ind, some rest) =>
    if rest.head? == some '-' then ind ++ default_indentation else ind
  | none => []

/-- The `indent` of `dadit.yaml.edit`: prefix every line (and drop a trailing
newline, as `str.splitlines` does). -/
def indent (text : List Char) (ind : List Char) : List Char :=
  List.intercalate (lc "\n") ((splitlinesPy text).map (fun l => ind ++ l))

/-- The `indent_block` of `dadit.yaml.edit`: prefix every line but the
first. -/
def indent_block (value : List Char) (ind : List Char) : List Char :=
  List.intercalate ('\n' :: ind) (splitlinesPy value)

/-- The `get_text_before` of `dadit.yaml.edit`: climb while the parent starts
exactly at the child's start, then slice the ancestor's text before the
child. -/
def get_text_beforeF : Nat → Cur → Cur → List Char
  | 0, child, par => par.text.take (child.startByte - par.startByte)
  | fuel+1, child, par =>
    match par.parent with
    | some p =>
      if par.startByte == child.startByte then get_text_beforeF fuel child p
      else par.text.take (child.startByte - par.startByte)
    | none => par.text.take (child.startByte - par.startByte)

def get_text_before (child : Cur) : List Char :=
  get_text_beforeF (child.path.length + 1) child child

/-- The `get_text_after` of `dadit.yaml.edit`. -/
def get_text_afterF : Nat → Cur → Cur → List Char
  | 0, child, par => par.text.drop (child.endByte - par.startByte)
  | fuel+1, child, par =>
    match par.parent with
    | some p =>
      if par.endByte == child.endByte then get_text_afterF fuel child p
      else par.text.drop (child.endByte - par.startByte)
    | none => par.text.drop (child.endByte - par.startByte)

def get_text_after (child : Cur) : List Char :=
  get_text_afterF (child.path.length + 1) child child

/-- A byte-range selection, `tuple[int, int]` in the source. -/
def select_node (c : Cur) : Nat × Nat := (c.startByte, c.endByte)

/-- Longest suffix matching `[ \t]*\n?[ \t]*` (the search of
`r"[ \t]*\n?[ \t]*$"`, which always succeeds, possibly with an empty
match). -/
def wsNlOptWsLen (pref : List Char) : Nat :=
  let t2 := (pref.reverse.takeWhile isPyWs).length
  let rem := pref.take (pref.length - t2)
  if rem.getLast? == some '\n' then
    t2 + 1 + ((rem.take (rem.length - 1)).reverse.takeWhile isPyWs).length
  else t2

/-- Longest suffix matching `[ \t]*\n[ \t]*` (the search of
`r"[ \t]*\n[ \t]*$"`, failing when no newline ends the relevant suffix). -/
def wsNlWsLen (pref : List Char) : Option Nat :=
  let t2 := (pref.reverse.takeWhile isPyWs).length
  let rem := pref.take (pref.length - t2)
  if rem.getLast? == some '\n' then
    some (t2 + 1 + ((rem.take (rem.length - 1)).reverse.takeWhile isPyWs).length)
  else none

/-- `expand_prefix_pattern` at `r"[ \t]*\n?[ \t]*$"`. -/
def expand_prefix_wsNlOptWs (node : Cur) (sel : Nat × Nat) : Nat × Nat :=
  (sel.1 - wsNlOptWsLen (get_text_before node), sel.2)

/-- `expand_prefix_pattern` at `r"[ \t]*\n[ \t]*$"`. -/
def expand_prefix_wsNlWs (node : Cur) (sel : Nat × Nat) : Nat × Nat :=
  match wsNlWsLen (get_text_before node) with
  | some m => (sel.1 - m, sel.2)
  | none => sel

/-- `expand_suffix_pattern` at `r"^[ \t]+"`. -/
def expand_suffix_wsPlus (node : Cur) (sel : Nat × Nat) : Nat × Nat :=
  let m := ((get_text_after node).takeWhile isPyWs).length
  if m > 0 then (sel.1, sel.2 + m) else sel

/-- `expand_suffix_pattern` at `r"^[ \t]*"` (always matches). -/
def expand_suffix_wsStar (node : Cur) (sel : Nat × Nat) : Nat × Nat :=
  (sel.1, sel.2 + ((get_text_after node).takeWhile isPyWs).length)

/-- Python list indexing `l[i]` with negative indices counting from the end
and `IndexError` out of range. -/
def pyGetItem {α : Type} (l : List α) (i : Int) : Except Err α :=
  let j : Int := if i < 0 then i + l.length else i
  if j < 0 then .error .indexError
  else
    match l.get? j.toNat with
    | some x => .ok x
    | none => .error .indexError

/-- The `converge` of `dadit.yaml.edit`: descend through the transparent
wrapper node types, skipping `comment` and `anchor` children, via `single`. -/
def convergeF : Nat → Cur → Except Err Cur
  | 0, _ => .error .fuelOut
  | fuel+1, c =>
    match c.nodeType with
    | "stream" | "document" | "block_node" | "flow_node" | "plain_scalar" => do
      let ch ← singleE (c.children.filter (fun k =>
        !(k.nodeType == "comment") && !(k.nodeType == "anchor")))
      convergeF fuel ch
    | _ => .ok c

def converge (c : Cur) : Except Err Cur := convergeF (c.node.size + 1) c

/-- The `key_field` selector applied to one `block_mapping_pair`: does the
pair's `key` field, viewed through `flow_node` and its children, read as the
given string? Candidate children are parsed eagerly and in order, as the
selector chain evaluates them. -/
def key_field_matches (name : String) (pair : Cur) : Except Err Bool := do
  let cands := (typeFilter "flow_node" (pair.childrenByFieldName "key")).flatMap Cur.children
  let results ← cands.mapM (fun k => do
    let v ← parse_node k
    pure (pyEq v (.str name)))
  pure (results.any id)

/-- Fueled body of `get_node_by_name` of `dadit.yaml.edit`. The
`flow_sequence` and `flow_mapping` arms execute `raise NotImplemented(...)`,
which is a `TypeError` in Python (`NotImplemented` is not callable). -/
def get_node_by_nameF : Nat → Cur → String → Except Err Cur
  | 0, _, _ => .error .fuelOut
  | fuel+1, c0, name => do
    let c ← converge c0
    match c.nodeType with
    | "document" => do
      let n ← singleE (dedupCur (typeFilter "block_node" c.children ++ typeFilter "flow_node" c.children))
      get_node_by_nameF fuel n name
    | "block_node" => do
      let n ← singleE (dedupCur (typeFilter "block_scalar" c.children
        ++ typeFilter "block_mapping" c.children ++ typeFilter "block_sequence" c.children))
      get_node_by_nameF fuel n name
    | "block_mapping" => do
      let pairs := typeFilter "block_mapping_pair" c.children
      let flags ← pairs.mapM (key_field_matches name)
      singleE ((pairs.zip flags).filterMap (fun pf => if pf.2 then some pf.1 else none))
    | "block_sequence" => do
      let items := typeFilter "block_sequence_item" c.children
      let i ← pyInt name
      pyGetItem items i
    | "flow_node" => do
      let n ← singleE (dedupCur (typeFilter "plain_scalar" c.children
        ++ typeFilter "flow_sequence" c.children ++ typeFilter "flow_mapping" c.children))
      get_node_by_nameF fuel n name
    | "block_sequence_item" | "flow_item" => do
      let n ← singleE (dedupCur (typeFilter "block_node" c.children ++ typeFilter "flow_node" c.children))
      get_node_by_nameF fuel n name
    | "block_mapping_pair" | "flow_pair" => do
      let n ← singleE (c.childrenByFieldName "value")
      get_node_by_nameF fuel n name
    | "flow_sequence" => .error .typeError
    | "flow_mapping" => .error .typeError
    | other => .error (.valueError ("Cannot navigate in " ++ other))

def get_node_by_name (c : Cur) (name : String) : Except Err Cur :=
  get_node_by_nameF (c.node.size + 2) c name

/-- The `get_node_by_path` of `dadit.yaml.edit`: step from the stream into its
first named child (the document), then resolve segment by segment. -/
def get_node_by_path (c0 : Cur) (path : List String) : Except Err Cur :=
  let c := if c0.nodeType == "stream" then
      match c0.namedChild 0 with
      | some ch => ch
      | none => c0
    else c0
  match path with
  | [] => .ok c
  | [segment] => get_node_by_name c segment
  | segment :: rest => do
    let n ← get_node_by_name c segment
    get_node_by_path n rest

/-- The `stringify_flow` of `dadit.yaml.edit`: JSON encoding. -/
def stringify_flow (value : JSON) : List Char := json_dumps value

/-! The block serializers of `dadit.yaml.edit` (mutually recursive with the
list and entry spines). Where the source applies `stringify_block` to the same
value inside a list/dict arm, the embedding inlines that call's own arm so
that the recursion is structural; the produced text is identical. A Python
string subscript `value[-1]` on an empty string raises `IndexError` before any
later match arm is tried. -/
mutual
def stringify_block : JSON → Except Err (List Char)
  | .arr items => do
    let xs ← stringify_items items
    .ok (List.intercalate (lc "\n") xs)
  | .obj entries => do
    let xs ← stringify_entries entries
    .ok (List.intercalate (lc "\n") xs)
  | v => .ok (stringify_flow v)
def stringify_block_sequence_item : JSON → Except Err (List Char)
  | .arr items => do
    let xs ← stringify_items items
    .ok (lc "- " ++ indent_block (List.intercalate (lc "\n") xs) default_indentation)
  | .obj entries => do
    let xs ← stringify_entries entries
    .ok (lc "- " ++ indent_block (List.intercalate (lc "\n") xs) default_indentation)
  | .str s =>
    let cs := s.data
    if cs.isEmpty then .error .indexError
    else if cs.getLast? == some '\n' then .ok (lc "- |\n" ++ indent cs default_indentation)
    else if cs.contains '\n' then .ok (lc "- |-\n" ++ indent cs default_indentation)
    else if cs.contains '"' then .ok (lc "- " ++ stringify_flow (.str s))
    else .ok (lc "- " ++ cs)
  | .null => .ok (lc "- ")
  | v => .ok (lc "- " ++ stringify_flow v)
def stringify_block_mapping_pair (key : String) : JSON → Except Err (List Char)
  | .arr items => do
    let xs ← stringify_items items
    .ok (key.data ++ lc ":\n" ++ List.intercalate (lc "\n") xs)
  | .obj entries => do
    let xs ← stringify_entries entries
    .ok (key.data ++ lc ":\n" ++ indent (List.intercalate (lc "\n") xs) default_indentation)
  | .str s =>
    let cs := s.data
    if cs.isEmpty then .error .indexError
    else if cs.getLast? == some '\n' then .ok (key.data ++ lc ": |\n" ++ indent cs default_indentation)
    else if cs.contains '\n' then .ok (key.data ++ lc ": |-\n" ++ indent cs default_indentation)
    else if cs.contains '"' then .ok (key.data ++ lc ": " ++ stringify_flow (.str s))
    else .ok (key.data ++ lc ": " ++ cs)
  | .null => .ok (key.data ++ lc ":")
  | v => .ok (key.data ++ lc ": " ++ stringify_flow v)
def stringify_items : JSONList → Except Err (List (List Char))
  | .nil => .ok []
  | .cons x xs => do
    let s ← stringify_block_sequence_item x
    let rest ← stringify_items xs
    .ok (s :: rest)
def stringify_entries : JSONEntries → Except Err (List (List Char))
  | .nil => .ok []
  | .cons k v es => do
    let s ← stringify_block_mapping_pair k v
    let rest ← stringify_entries es
    .ok (s :: rest)
end

/-- The `re.sub(r"(\n|$)", f" {comment}\1", yaml_pair, count=1)` of
`edit_replace`: insert the comment text (with a leading space) before the
first newline, or at the end when there is none. -/
def subFirstNlOrEnd (s : List Char) (ins : List Char) : List Char :=
  match splitFirstNl s with
  | some p => p.1 ++ ins ++ '\n' :: p.2
  | none => s ++ ins

/-- The `edit_replace` of `dadit.yaml.edit`. -/
def edit_replace (root : Cur) (path : List String) (value : JSON) : Except Err (List Edit) := do
  let node ← get_node_by_path root path
  match node.nodeType with
  | "block_mapping_pair" => do
    let selection := select_node node
    let keyNode ← match node.childByFieldName "key" with
      | some k => pure k
      | none => .error Err.assertionError
    let pair0 ← stringify_block_mapping_pair keyNode.text.asString value
    let yaml_pair := indent_block pair0 (get_block_indentation node)
    -- comment found under a block_scalar child of the pair
    let comment1 ← optionalE ((typeFilter "block_scalar" node.children).flatMap
      (fun bs => typeFilter "comment" bs.children))
    let comment0 : Option (List Char) := comment1.map Cur.text
    -- an adjacent comment on the same row wins and is replaced together with the pair
    let cmSel : Option (List Char) × (Nat × Nat) :=
      match node.nextSibling with
      | some cn =>
        if cn.nodeType == "comment" && cn.row == node.row
        then (some cn.text, (selection.1, cn.endByte))
        else (comment0, selection)
      | none => (comment0, selection)
    let yaml_pair := match cmSel.1 with
      | some cm => subFirstNlOrEnd yaml_pair (' ' :: cm)
      | none => yaml_pair
    let yaml_pair := if node.text.getLast? == some '\n' then yaml_pair ++ lc "\n" else yaml_pair
    .ok [.replace cmSel.2.1 cmSel.2.2 yaml_pair]
  | "flow_pair" => .ok [.replace node.startByte node.endByte (stringify_flow value)]
  | "block_sequence_item" => do
    let item0 ← stringify_block_sequence_item value
    let yaml_value := indent_block item0 (get_block_indentation node)
    let yaml_value := if node.text.getLast? == some '\n' then yaml_value ++ lc "\n" else yaml_value
    let selection := select_node node
    let selection := expand_suffix_wsPlus node selection
    .ok [.replace selection.1 selection.2 yaml_value]
  | "document" => do
    let b ← stringify_block value
    .ok [.replace node.startByte node.endByte (b ++ lc "\n")]
  | other => .error (.valueError ("Invalid node type " ++ other))

/-- The target-parent query of `edit_add`: among the children of the resolved
parent, the block or flow collection under a `block_node`/`flow_node`
child. -/
def add_target_candidates (parent : Cur) : List Cur :=
  parent.children.flatMap (fun ch =>
    let blockKids := if ch.nodeType == "block_node" then ch.children else []
    let flowKids := if ch.nodeType == "flow_node" then ch.children else []
    dedupCur (typeFilter "block_sequence" blockKids ++ typeFilter "block_mapping" blockKids
      ++ typeFilter "flow_sequence" flowKids ++ typeFilter "flow_mapping" flowKids))

/-- The per-collection dispatch of `edit_add`, after the target parent has
been resolved. -/
def add_dispatch (parent : Cur) (key : String) (value : JSON) : Except Err (List Edit) :=
  match parent.nodeType with
  | "block_mapping" => do
    let frag ← stringify_block_mapping_pair key value
    .ok [.insert parent.endByte (indent frag (get_block_indentation parent) ++ lc "\n")]
  | "block_sequence" => do
    let siblings := typeFilter "block_sequence_item" parent.children
    let index ← if key == "-" then pure ((siblings.length : Int)) else pyInt key
    let frag ← stringify_block_sequence_item value
    if index == (siblings.length : Int) then
      .ok [.insert parent.endByte (indent frag (get_block_indentation parent) ++ lc "\n")]
    else do
      let sibling ← pyGetItem siblings index
      .ok [.insert sibling.startByte
        (indent_block frag (get_indentation sibling) ++ lc "\n" ++ get_indentation sibling)]
  | "flow_mapping" =>
    .ok [.insert parent.endByte (lc ", " ++ stringify_flow (.str key) ++ lc ": " ++ stringify_flow value)]
  | "flow_sequence" => do
    let index ← pyInt key
    let siblings := typeFilter "flow_sequence_item" parent.children
    if index > 0 then do
      let sib ← pyGetItem siblings index
      .ok [.insert sib.endByte (lc ", " ++ stringify_flow value)]
    else
      .ok [.insert (parent.startByte + 1) (stringify_flow value)]
  | other => .error (.valueError ("Invalid node type " ++ other))

/-- The `edit_add` of `dadit.yaml.edit`: split the path into parent path and
key (unpacking fails on an empty path), resolve the parent, find the target
collection, dispatch. -/
def edit_add (root : Cur) (path : List String) (value : JSON) : Except Err (List Edit) :=
  match path.getLast? with
  | none => .error (.valueError "not enough values to unpack")
  | some key => do
    let parent0 ← get_node_by_path root path.dropLast
    let parent ← singleE (add_target_candidates parent0)
    add_dispatch parent key value

/-- The `edit_remove` of `dadit.yaml.edit`. -/
def edit_remove (root : Cur) (path : List String) : Except Err (List Edit) := do
  let node ← get_node_by_path root path
  match node.nodeType with
  | "block_mapping_pair" =>
    match node.parent with
    | some par =>
      if par.nodeType == "block_mapping" && (typeFilter "block_mapping_pair" par.children == [node]) then do
        let selection := select_node par
        let selection := expand_prefix_wsNlOptWs node selection
        let selection := expand_suffix_wsPlus node selection
        let pc ← optionalE (typeFilter "comment" (previous_node node))
        let fragSel : List Char × (Nat × Nat) :=
          match pc with
          | some cn => (lc "\x7b\x7d" ++ ' ' :: cn.text, (cn.startByte, selection.2))
          | none => (lc "\x7b\x7d", selection)
        let insidePair :=
          par.nodeType == "block_mapping" &&
          (match par.parent with
           | some bn =>
             bn.nodeType == "block_node" &&
             (match bn.parent with
              | some gp => gp.nodeType == "block_sequence_item" || gp.nodeType == "block_mapping_pair"
              | none => false)
           | none => false)
        let frag := if insidePair then ' ' :: fragSel.1 else fragSel.1
        let frag := if par.text.getLast? == some '\n' then frag ++ lc "\n" else frag
        .ok [.replace fragSel.2.1 fragSel.2.2 frag]
      else .ok [.remove node.startByte node.endByte]
    | none => .ok [.remove node.startByte node.endByte]
  | "block_sequence_item" =>
    let soleItem :=
      match node.parent with
      | some par => par.nodeType == "block_sequence" && (typeFilter "block_sequence_item" par.children == [node])
      | none => false
    if soleItem then do
      let selection := select_node node
      let selection := expand_prefix_wsNlWs node selection
      let selection := expand_suffix_wsStar node selection
      let pc ← optionalE (typeFilter "comment" (previous_node node))
      let fragSel : List Char × (Nat × Nat) :=
        match pc with
        | some cn => (lc "[]" ++ ' ' :: cn.text, (cn.startByte, selection.2))
        | none => (lc "[]", selection)
      let insideItem :=
        match node.parent with
        | some par =>
          par.nodeType == "block_sequence" &&
          (match par.parent with
           | some bn =>
             bn.nodeType == "block_node" &&
             (match bn.parent with
              | some gp => gp.nodeType == "block_sequence_item" || gp.nodeType == "block_mapping_pair"
              | none => false)
           | none => false)
        | none => false
      let frag := if insideItem then ' ' :: fragSel.1 else fragSel.1
      let frag := if node.text.getLast? == some '\n' then frag ++ lc "\n" else frag
      .ok [.replace fragSel.2.1 fragSel.2.2 frag]
    else do
      let selection := select_node node
      let selection := expand_prefix_wsNlWs node selection
      .ok [.remove selection.1 selection.2]
  | "flow_pair" => .ok [.remove node.startByte node.endByte]
  | other => .error (.valueError ("Invalid node type " ++ other))

/-- The `get_value_by_path` of `dadit.yaml.edit` on JSON values: dict lookup
(`KeyError` when absent) or list indexing via `int(segment)`. The source
phrases the recursion as a single-segment step composed with the rest; the
embedding folds the two cases into one structural recursion with identical
behaviour. For a scalar with a nonempty path the source's catch-all match arm
calls the function again with unchanged arguments, so the call never returns
(a `RecursionError` in CPython); the embedding maps that divergence to
`recursionError`. The source's final `ValueError` arm is unreachable. -/
def get_value_by_path : JSON → List String → Except Err JSON
  | root, [] => .ok root
  | root, segment :: rest => do
    let v ← match root with
      | .obj entries =>
        match entries.lookup segment with
        | some v => pure v
        | none => .error Err.keyError
      | .arr items => do
        let i ← pyInt segment
        pyGetItem items.toList i
      | _ => .error Err.recursionError
    get_value_by_path v rest

/-- The `edit_move` of `dadit.yaml.edit`. Note that, as in the source, the
moved value is read at `path` (not at `source`) and the removal also targets
`path`. -/
def edit_move (root : Cur) (source : List String) (path : List String) : Except Err (List Edit) := do
  let root_value ← parse_node root
  let value ← get_value_by_path root_value path
  let r ← edit_remove root path
  let a ← edit_add root path value
  .ok (r ++ a)

/-- The `edit_copy` of `dadit.yaml.edit`. As in the source, the copied value
is read at `path`, not at `source`. -/
def edit_copy (root : Cur) (source : List String) (path : List String) : Except Err (List Edit) := do
  let root_value ← parse_node root
  let value ← get_value_by_path root_value path
  edit_add root path value

/-- The mapping-pair descent of `edit_test` (`flow_mapping_pair` is spelled as
in the source, although the grammar vocabulary has no such type). A missing
`value` field would make the source call `parse_node(None)`, an
`AttributeError`. -/
def test_target (node : Cur) : Except Err Cur :=
  match node.nodeType with
  | "block_mapping_pair" | "flow_mapping_pair" =>
    match node.childByFieldName "value" with
    | some v => .ok v
    | none => .error Err.attributeError
  | _ => .ok node

/-- The `edit_test` of `dadit.yaml.edit`: only a `ValueError` from resolution
is converted into `TestFailure`; other exceptions (for instance the
`IndexError` of an out-of-range sequence index) propagate. A successful test
emits no edits. -/
def edit_test (root : Cur) (path : List String) (value : JSON) : Except Err (List Edit) :=
  match get_node_by_path root path with
  | .error (.valueError _) => .error (.testFailure (.test path value) path)
  | .error e => .error e
  | .ok node0 => do
    let node ← test_target node0
    let v ← parse_node node
    if pyEq v value then .ok [] else .error (.testFailure (.test path value) path)

/-- The `edit_patch_operation` of `dadit.yaml.edit`. -/
def edit_patch_operation (root : Cur) : JSONPatchOperation → Except Err (List Edit)
  | .add path value => edit_add root path value
  | .remove path => edit_remove root path
  | .replace path value => edit_replace root path value
  | .move source path => edit_move root source path
  | .copy source path => edit_copy root source path
  | .test path value => edit_test root path value

/-- The `edit_patch` of `dadit.yaml.edit`: concatenate the edits of the
operations in order; the first failing operation aborts the whole batch (the
generator is forced by `list(edits)` inside `apply_edits` before any splice
happens). -/
def edit_patch (root : Cur) : List JSONPatchOperation → Except Err (List Edit)
  | [] => .ok []
  | op :: rest => do
    let es ← edit_patch_operation root op
    let rest2 ← edit_patch root rest
    .ok (es ++ rest2)

/-- The root cursor of a parsed document. -/
def rootCur (d : Doc) : Cur := ⟨d, []⟩

/-- The `apply_patch` of `dadit.yaml.edit`, taking the already parsed document
(`Document.parse` runs the external tree-sitter parser, which is out of the
embedding's scope): compile the patch against the original tree, then apply
all edits to the source bytes. No text is produced when any operation
fails. -/
def apply_patch (d : Doc) (ops : List JSONPatchOperation) : Except Err (List Char) := do
  let edits ← edit_patch (rootCur d) ops
  .ok (apply_edits d.src edits)

/-- Split on every occurrence of a character, keeping empty parts (Python
`str.split` with a one-character separator). -/
def splitOnChar (sep : Char) : List Char → List (List Char)
  | [] => [[]]
  | c :: rest =>
    if c == sep then [] :: splitOnChar sep rest
    else
      match splitOnChar sep rest with
      | [] => [[c]]
      | p :: ps => (c :: p) :: ps

/-- Python `str.replace`: left-to-right, non-overlapping. Fuel is the text
length (each step consumes at least one character, the patterns used being
nonempty). -/
def replacePyF : Nat → List Char → List Char → List Char → List Char
  | 0, _, _, s => s
  | fuel+1, pat, rep, s =>
    if !pat.isEmpty && pat.isPrefixOf s then rep ++ replacePyF fuel pat rep (s.drop pat.length)
    else
      match s with
      | [] => []
      | c :: rest => c :: replacePyF fuel pat rep rest

def replacePy (pat rep s : List Char) : List Char := replacePyF (s.length + 1) pat rep s

/-- The `JSONPointer.parse` of `dadit.json_patch`: reject any text that does
not start with a slash (including the empty text), then split on slashes and
unescape `~1` before `~0` in each segment. -/
def JSONPointer.parse (s : String) : Except Err (List String) :=
  if !((lc "/").isPrefixOf s.data) then .error (.valueError ("Invalid JSON pointer " ++ s))
  else .ok ((((splitOnChar '/' s.data).drop 1).map (fun part =>
    (replacePy (lc "~0") (lc "~") (replacePy (lc "~1") (lc "/") part)).asString)))

/-! Fixture documents. The trees are modelled from the spec: the node-type and
field vocabulary of section 6, the node interface of section 3, with byte
ranges laid out as the tree-sitter YAML grammar produces them (block
constructs own their trailing newline through hidden tokens; mapping pairs and
sequence items of scalar values end before the newline; anonymous tokens such
as `:`, `-`, `[`, `,`, `]` appear as unnamed children). -/
/-- Anonymous token node. -/
def tok (t : String) (startB endB row : Nat) : RawTree := nd t false none startB endB row []

/-- A plain string scalar wrapped as `flow_node > plain_scalar >
string_scalar`, all sharing the byte range. -/
def fnStr (startB endB row : Nat) (fld : Option String) : RawTree :=
  nd "flow_node" true fld startB endB row
    [nd "plain_scalar" true none startB endB row
      [nd "string_scalar" true none startB endB row []]]

/-- A plain integer scalar wrapped as `flow_node > plain_scalar >
integer_scalar`. -/
def fnInt (startB endB row : Nat) (fld : Option String) : RawTree :=
  nd "flow_node" true fld startB endB row
    [nd "plain_scalar" true none startB endB row
      [nd "integer_scalar" true none startB endB row []]]

/-- Document `"a:\n  b: 1\n"`: a block mapping whose sole pair holds a nested
block mapping with the sole pair `b: 1`. -/
def docNested : Doc :=
  ⟨lc "a:\n  b: 1\n",
    nd "stream" true none 0 10 0
      [nd "document" true none 0 10 0
        [nd "block_node" true none 0 10 0
          [nd "block_mapping" true none 0 10 0
            [nd "block_mapping_pair" true none 0 10 0
              [fnStr 0 1 0 (some "key"),
               tok ":" 1 2 0,
               nd "block_node" true (some "value") 5 10 1
                 [nd "block_mapping" true none 5 10 1
                   [nd "block_mapping_pair" true none 5 9 1
                     [fnStr 5 6 1 (some "key"),
                      tok ":" 6 7 1,
                      fnInt 8 9 1 (some "value")]]]]]]]]⟩

/-- Document `"a: 1\nb: 2\n"`: a block mapping with two scalar pairs. -/
def docMap2 : Doc :=
  ⟨lc "a: 1\nb: 2\n",
    nd "stream" true none 0 10 0
      [nd "document" true none 0 10 0
        [nd "block_node" true none 0 10 0
          [nd "block_mapping" true none 0 10 0
            [nd "block_mapping_pair" true none 0 4 0
              [fnStr 0 1 0 (some "key"),
               tok ":" 1 2 0,
               fnInt 3 4 0 (some "value")],
             nd "block_mapping_pair" true none 5 9 1
              [fnStr 5 6 1 (some "key"),
               tok ":" 6 7 1,
               fnInt 8 9 1 (some "value")]]]]]⟩

/-- Document `"- 1\n- 2\n"`: a block sequence with two scalar items. -/
def docSeq2 : Doc :=
  ⟨lc "- 1\n- 2\n",
    nd "stream" true none 0 8 0
      [nd "document" true none 0 8 0
        [nd "block_node" true none 0 8 0
          [nd "block_sequence" true none 0 8 0
            [nd "block_sequence_item" true none 0 3 0
              [tok "-" 0 1 0, fnInt 2 3 0 none],
             nd "block_sequence_item" true none 4 7 1
              [tok "-" 4 5 1, fnInt 6 7 1 none]]]]]⟩

/-- Document `"- 1\n"`: a block sequence with one scalar item. -/
def docSeq1 : Doc :=
  ⟨lc "- 1\n",
    nd "stream" true none 0 4 0
      [nd "document" true none 0 4 0
        [nd "block_node" true none 0 4 0
          [nd "block_sequence" true none 0 4 0
            [nd "block_sequence_item" true none 0 3 0
              [tok "-" 0 1 0, fnInt 2 3 0 none]]]]]⟩

/-- Document `"a: [1, 2]\n"`: a block mapping whose pair value is a flow
sequence of two scalars. -/
def docFlow : Doc :=
  ⟨lc "a: [1, 2]\n",
    nd "stream" true none 0 10 0
      [nd "document" true none 0 10 0
        [nd "block_node" true none 0 10 0
          [nd "block_mapping" true none 0 10 0
            [nd "block_mapping_pair" true none 0 9 0
              [fnStr 0 1 0 (some "key"),
               tok ":" 1 2 0,
               nd "flow_node" true (some "value") 3 9 0
                 [nd "flow_sequence" true none 3 9 0
                   [tok "[" 3 4 0,
                    fnInt 4 5 0 none,
                    tok "," 5 6 0,
                    fnInt 7 8 0 none,
                    tok "]" 8 9 0]]]]]]]⟩

/-- Document `"a: \x7b\x7d\n"` (an empty flow mapping value), the shape of the
output of the sole-pair removal scenario. -/
def docEmptyMap : Doc :=
  ⟨lc "a: \x7b\x7d\n",
    nd "stream" true none 0 6 0
      [nd "document" true none 0 6 0
        [nd "block_node" true none 0 6 0
          [nd "block_mapping" true none 0 6 0
            [nd "block_mapping_pair" true none 0 5 0
              [fnStr 0 1 0 (some "key"),
               tok ":" 1 2 0,
               nd "flow_node" true (some "value") 3 5 0
                 [nd "flow_mapping" true none 3 5 0
                   [tok "\x7b" 3 4 0, tok "\x7d" 4 5 0]]]]]]]⟩

/-- Document `"a:\n- 1\n"`: a block mapping whose sole pair holds a block
sequence with one scalar item. -/
def docSeqInMap : Doc :=
  ⟨lc "a:\n- 1\n",
    nd "stream" true none 0 7 0
      [nd "document" true none 0 7 0
        [nd "block_node" true none 0 7 0
          [nd "block_mapping" true none 0 7 0
            [nd "block_mapping_pair" true none 0 7 0
              [fnStr 0 1 0 (some "key"),
               tok ":" 1 2 0,
               nd "block_node" true (some "value") 3 7 1
                 [nd "block_sequence" true none 3 7 1
                   [nd "block_sequence_item" true none 3 6 1
                     [tok "-" 3 4 1, fnInt 5 6 1 none]]]]]]]]⟩

/-- Document `"a: 1 # keep\n"`: a scalar pair followed by an inline comment
on the same row (the comment is a named sibling of the pair inside the block
mapping). -/
def docComment : Doc :=
  ⟨lc "a: 1 # keep\n",
    nd "stream" true none 0 12 0
      [nd "document" true none 0 12 0
        [nd "block_node" true none 0 12 0
          [nd "block_mapping" true none 0 12 0
            [nd "block_mapping_pair" true none 0 4 0
              [fnStr 0 1 0 (some "key"),
               tok ":" 1 2 0,
               fnInt 3 4 0 (some "value")],
             nd "comment" true none 5 11 0 []]]]]⟩

/-- Is the operation a `move`? -/
def opIsMove : JSONPatchOperation → Bool
  | .move _ _ => true
  | _ => false

/-! Claim C1: semantic correctness of the whole pipeline. The reference
JSON-Patch application that Property 1 compares against lives in the external
`jsonpatch` library, not in the repository, so it is modelled from the spec
below (RFC 6902 semantics over the embedded JSON model). -/
/-- Modelled from the spec: an RFC 6901 array index — decimal digits. -/
def refIndex (seg : String) : Option Nat :=
  if !seg.data.isEmpty && seg.data.all (fun c => c.isDigit) then
    some (seg.data.foldl (fun a c => a * 10 + (c.toNat - 48)) 0)
  else none

/-- Removal of a key from an ordered object. -/
def removeKey : JSONEntries → String → JSONEntries
  | .nil, _ => .nil
  | .cons k v es, key => if k == key then es else .cons k v (removeKey es key)

/-- Modelled from the spec: reference pointer evaluation over JSON values
(numeric segments index arrays, other segments key objects). -/
def refGet : JSON → List String → Option JSON
  | v, [] => some v
  | .obj es, seg :: rest => (es.lookup seg).bind (fun w => refGet w rest)
  | .arr xs, seg :: rest =>
    (refIndex seg).bind (fun i => (xs.toList.get? i).bind (fun w => refGet w rest))
  | _, _ :: _ => none

/-- Modelled from the spec: the RFC 6902 `add` — replace the root, set an
object key, or insert into an array (`-` appends). -/
def refAdd : JSON → List String → JSON → Option JSON
  | _, [], v => some v
  | .obj es, [k], v => some (.obj (es.upsert k v))
  | .arr xs, [k], v =>
    if k == "-" then some (.arr (JSONList.ofList (xs.toList ++ [v])))
    else (refIndex k).bind (fun i =>
      if i ≤ xs.toList.length
      then some (.arr (JSONList.ofList (xs.toList.take i ++ v :: xs.toList.drop i)))
      else none)
  | .obj es, k :: rest, v =>
    (es.lookup k).bind (fun w => (refAdd w rest v).map (fun w2 => .obj (es.upsert k w2)))
  | .arr xs, k :: rest, v =>
    (refIndex k).bind (fun i => (xs.toList.get? i).bind (fun w =>
      (refAdd w rest v).map (fun w2 => .arr (JSONList.ofList (xs.toList.set i w2)))))
  | _, _ :: _, _ => none

/-- Modelled from the spec: the RFC 6902 `remove` — the location must exist;
removing the whole document is undefined. -/
def refRemove : JSON → List String → Option JSON
  | _, [] => none
  | .obj es, [k] => if (es.lookup k).isSome then some (.obj (removeKey es k)) else none
  | .arr xs, [k] =>
    (refIndex k).bind (fun i =>
      if i < xs.toList.length
      then some (.arr (JSONList.ofList (xs.toList.take i ++ xs.toList.drop (i + 1))))
      else none)
  | .obj es, k :: rest =>
    (es.lookup k).bind (fun w => (refRemove w rest).map (fun w2 => .obj (es.upsert k w2)))
  | .arr xs, k :: rest =>
    (refIndex k).bind (fun i => (xs.toList.get? i).bind (fun w =>
      (refRemove w rest).map (fun w2 => .arr (JSONList.ofList (xs.toList.set i w2)))))
  | _, _ :: _ => none

/-- Modelled from the spec: the RFC 6902 `replace` — the location must
exist and receives the new value. -/
def refSet : JSON → List String → JSON → Option JSON
  | _, [], v => some v
  | .obj es, [k], v => if (es.lookup k).isSome then some (.obj (es.upsert k v)) else none
  | .arr xs, [k], v =>
    (refIndex k).bind (fun i =>
      if i < xs.toList.length then some (.arr (JSONList.ofList (xs.toList.set i v))) else none)
  | .obj es, k :: rest, v =>
    (es.lookup k).bind (fun w => (refSet w rest v).map (fun w2 => .obj (es.upsert k w2)))
  | .arr xs, k :: rest, v =>
    (refIndex k).bind (fun i => (xs.toList.get? i).bind (fun w =>
      (refSet w rest v).map (fun w2 => .arr (JSONList.ofList (xs.toList.set i w2)))))
  | _, _ :: _, _ => none

/-- Modelled from the spec: one RFC 6902 operation over a JSON value
(`none` when the operation is not defined there). -/
def refApplyOp (v : JSON) : JSONPatchOperation → Option JSON
  | .add p val => refAdd v p val
  | .remove p => refRemove v p
  | .replace p val => refSet v p val
  | .move f p => (refGet v f).bind (fun w => (refRemove v f).bind (fun v2 => refAdd v2 p w))
  | .copy f p => (refGet v f).bind (fun w => refAdd v p w)
  | .test p val => (refGet v p).bind (fun w => if pyEq w val then some v else none)

/-- Modelled from the spec: the reference JSON-Patch application, operations
composed left to right. -/
def refApply : JSON → List JSONPatchOperation → Option JSON
  | v, [] => some v
  | v, op :: rest => (refApplyOp v op).bind (fun v2 => refApply v2 rest)

/-! Claim C7: block scalar decoding. The structured-input lemmas below relate
the decoder to the lines it was given. -/
/-- Join lines with single newlines (no trailing newline) — the shape of a
block scalar body whose indentation has already been attached per line. -/
def joinNl : List (List Char) → List Char
  | [] => []
  | [l] => l
  | l :: ls => l ++ '\n' :: joinNl ls

/-- Modelled from the spec: the header pattern as the spec literally states
it, `^(\|\|>|\|-|>-)[^\n]*\n([ \t]*)` — an alternation of the three literal
alternatives `||>`, `|-` and `>-`, each followed by the rest of the line, a
newline and captured indentation. Defined only to compare the spec's stated
pattern against the source's actual one. -/
def specHeaderMatches (block : List Char) : Bool :=
  ((lc "||>").isPrefixOf block && (splitFirstNl (block.drop 3)).isSome)
    || ((lc "|-").isPrefixOf block && (splitFirstNl (block.drop 2)).isSome)
    || ((lc ">-").isPrefixOf block && (splitFirstNl (block.drop 2)).isSome)

example : splitlinesPy (lc "a\nb\n") = [lc "a", lc "b"] := by decide

example : splitlinesPy (lc "") = [] := by decide

example : splitlinesPy (lc "a\n\nb") = [lc "a", [], lc "b"] := by decide

example : splitlinesPy (lc "a\x0db") = [lc "a", lc "b"] := by decide

example : splitlinesPy (lc "a\x0d\nb") = [lc "a", lc "b"] := by decide

example : splitlinesPy (lc "a\x0cb\x0d") = [lc "a", lc "b"] := by decide

example : parse_scalar_block (lc "|\na\x0db") = .ok (lc "a\nb\n") := rfl

example : lastLineMatch (lc "a:\n  ") = some (lc "  ", none) := by decide

example : lastLineMatch (lc "- 1\n") = some ([], some (lc "- 1")) := by decide

example : lastLineMatch (lc "x\n  a: 1\n") = some (lc "  ", some (lc "a: 1")) := by decide

example : lastLineMatch (lc "a\x0d\n") = some ([], some (lc "a\x0d")) := by decide

example : json_dumps (jarr [.int 1, .str "x\"y", .null]) = lc "[1, \"x\\\"y\", null]" := by decide

example : json_dumps (jobj [("a", .int (-2))]) = lc "\x7b\"a\": -2\x7d" := by decide

example : pyEq (jobj [("a", .int 1), ("b", .int 2)]) (jobj [("b", .int 2), ("a", .int 1)]) = true := by decide

example : pyEq (.bool true) (.int 1) = true := by decide

example : apply_edits (lc "abcdef") [.remove 4 5, .replace 1 2 (lc "XY")] = lc "aXYcdf" := by decide

example : nonOverlapB [.remove 3 7, .insert 4 (lc "x")] = false := by decide

example : parse_scalar_block (lc "|\n  a\n  b\n") = .ok (lc "a\nb\n") := rfl

example : parse_scalar_block (lc "|-\n  a\n  b") = .ok (lc "a\nb") := rfl

example : parse_scalar_block (lc ">\n  a\n  b\n") = .ok (lc "a b\n") := rfl

example : parse_scalar_block (lc "abc") = .error (.valueError "Invalid block scalar") := rfl

example : pyIntL (lc "-42") = .ok (-42) := rfl

example : unescape_double_quoted (lc "a\\n\\x41") = .ok (lc "a\nA") := rfl

example : JSONPointer.parse "/a/~1b/~01" = .ok ["a", "/b", "~1"] := rfl

example : JSONPointer.parse "" = .error (.valueError "Invalid JSON pointer ") := rfl

example : stringify_block_mapping_pair "k" (.str "") = .error .indexError := rfl

example : stringify_block_mapping_pair "k" (jobj [("a", .int 1)]) = .ok (lc "k:\n  a: 1") := rfl

example : stringify_block_sequence_item (.str "x\ny\n") = .ok (lc "- |\n  x\n  y") := rfl

example : parse_node (rootCur docNested) = .ok (jobj [("a", jobj [("b", .int 1)])]) := rfl

example : parse_node (rootCur docMap2) = .ok (jobj [("a", .int 1), ("b", .int 2)]) := rfl

example : parse_node (rootCur docSeq2) = .ok (jarr [.int 1, .int 2]) := rfl

example : parse_node (rootCur docFlow) = .ok (jobj [("a", jarr [.int 1, .int 2])]) := rfl

example : parse_node (rootCur docEmptyMap) = .ok (jobj [("a", jobj [])]) := rfl

example : apply_patch docNested [.remove ["a", "b"]] = .ok (lc "a: \x7b\x7d\n") := rfl

example : edit_copy (rootCur docMap2) ["a"] ["b"] = .ok [.insert 10 (lc "b: 2\n")] := rfl

example : edit_patch (rootCur docSeq2) [.move ["0"] ["1"]] = .ok [.remove 3 7, .insert 4 (lc "- 2\n")] := rfl

example : edit_test (rootCur docSeq1) ["5"] (.int 1) = .error .indexError := rfl

example : edit_add (rootCur docFlow) ["a", "0"] (.int 3) = .ok [.insert 4 (lc "3")] := rfl

example : edit_add (rootCur docFlow) ["a", "1"] (.int 3) = .error .indexError := rfl

example : edit_replace (rootCur docMap2) ["a"] (.int 5) = .ok [.replace 0 4 (lc "a: 5")] := rfl

/-! Correctness of the edit applicator. The proof shows that the descending
fold of `apply_edits` computes the simultaneous substitution `substFrom` of
the same edits listed ascending, for any supply order, whenever the edits are
pairwise disjoint with distinct start bytes and lie within the buffer. -/
lemma insertDesc_perm (e : Edit) (l : List Edit) : List.Perm (insertDesc e l) (e :: l) := by
  induction l with
  | nil => simp [insertDesc]
  | cons x xs ih =>
    by_cases h : e.startByte < x.startByte
    · simp only [insertDesc, if_pos h]
      exact (List.Perm.cons x ih).trans (List.Perm.swap e x xs)
    · simp [insertDesc, if_neg h]

lemma sortDesc_perm (l : List Edit) : List.Perm (sortDesc l) l := by
  induction l with
  | nil => simp [sortDesc]
  | cons x xs ih =>
    exact (insertDesc_perm x (sortDesc xs)).trans (List.Perm.cons x ih)

lemma insertDesc_sorted (e : Edit) (l : List Edit)
    (h : l.Pairwise (fun a b => b.startByte ≤ a.startByte)) :
    (insertDesc e l).Pairwise (fun a b => b.startByte ≤ a.startByte) := by
  induction l with
  | nil => simp [insertDesc]
  | cons x xs ih =>
    rcases List.pairwise_cons.mp h with ⟨hx, hxs⟩
    by_cases hc : e.startByte < x.startByte
    · simp only [insertDesc, if_pos hc]
      refine List.pairwise_cons.mpr ⟨?_, ih hxs⟩
      intro b hb
      rcases List.mem_cons.mp (((insertDesc_perm e xs).mem_iff).mp hb) with hb' | hb'
      · subst hb'; omega
      · exact hx b hb'
    · simp only [insertDesc, if_neg hc]
      refine List.pairwise_cons.mpr ⟨?_, h⟩
      intro b hb
      rcases List.mem_cons.mp hb with hb' | hb'
      · subst hb'; omega
      · exact le_trans (hx b hb') (by omega)

lemma sortDesc_sorted (l : List Edit) :
    (sortDesc l).Pairwise (fun a b => b.startByte ≤ a.startByte) := by
  induction l with
  | nil => simp [sortDesc]
  | cons x xs ih => exact insertDesc_sorted x (sortDesc xs) ih

/-- Two strictly descending (by start byte) lists that are permutations of
each other are equal. -/
lemma strictDesc_eq (l1 l2 : List Edit) (hp : List.Perm l1 l2)
    (h1 : l1.Pairwise (fun a b => b.startByte < a.startByte))
    (h2 : l2.Pairwise (fun a b => b.startByte < a.startByte)) : l1 = l2 := by
  haveI : IsAntisymm Edit (fun a b => b.startByte < a.startByte) :=
    ⟨fun a b hab hba => absurd hab (by omega)⟩
  exact List.eq_of_perm_of_sorted hp h1 h2

lemma seg_splice (text c : List Char) (s en a b : Nat) (hb : b ≤ s) (hs : s ≤ text.length) :
    ((text.take s ++ c ++ text.drop en).drop a).take (b - a)
      = (text.drop a).take (b - a) := by
  by_cases hab : b ≤ a
  · have : b - a = 0 := by omega
    simp [this]
  · have ha : a ≤ s := by omega
    have hlen : a ≤ (text.take s).length := by
      simp [List.length_take]; omega
    rw [List.append_assoc, List.drop_append_of_le_length hlen,
      List.take_append_of_le_length (by simp [List.length_take]; omega),
      List.drop_take, List.take_take]
    congr 1
    omega

lemma drop_splice (text c : List Char) (s en pos : Nat) (hpos : pos ≤ s) (hs : s ≤ text.length) :
    (text.take s ++ c ++ text.drop en).drop pos
      = (text.drop pos).take (s - pos) ++ c ++ text.drop en := by
  have hlen : pos ≤ (text.take s).length := by
    simp [List.length_take]; omega
  rw [List.append_assoc, List.drop_append_of_le_length hlen, List.drop_take,
    List.append_assoc]

lemma spliceStep_eq (doc : List Char) (e : Edit) :
    spliceStep doc e = doc.take e.startByte ++ e.content ++ doc.drop e.endByte := by
  cases e <;> simp [spliceStep, Edit.startByte, Edit.content, Edit.endByte]

/-- Splicing the rightmost edit first does not disturb the text that the
remaining (entirely left-of-it) edits read: it moves the spliced edit to the
end of the ascending list. -/
lemma substFrom_splice (text : List Char) (e : Edit) (asc : List Edit) (pos : Nat)
    (hpos : pos ≤ e.startByte) (hs : e.startByte ≤ text.length)
    (hall : ∀ x ∈ asc, x.startByte ≤ x.endByte ∧ x.endByte ≤ e.startByte) :
    substFrom (spliceStep text e) pos asc = substFrom text pos (asc ++ [e]) := by
  induction asc generalizing pos with
  | nil =>
    rw [spliceStep_eq]
    show (text.take e.startByte ++ e.content ++ text.drop e.endByte).drop pos
      = (text.drop pos).take (e.startByte - pos) ++ e.content ++ substFrom text e.endByte []
    rw [drop_splice text e.content e.startByte e.endByte pos hpos hs]
    rfl
  | cons x asc ih =>
    have hx := hall x (by simp)
    have hrest : ∀ y ∈ asc, y.startByte ≤ y.endByte ∧ y.endByte ≤ e.startByte := by
      intro y hy; exact hall y (by simp [hy])
    show ((spliceStep text e).drop pos).take (x.startByte - pos) ++ x.content
        ++ substFrom (spliceStep text e) x.endByte asc
      = (text.drop pos).take (x.startByte - pos) ++ x.content
        ++ substFrom text x.endByte (asc ++ [e])
    rw [spliceStep_eq,
      seg_splice text e.content e.startByte e.endByte pos x.startByte (by omega) hs,
      ← spliceStep_eq, ih x.endByte (by omega) hrest]

/-- A descending fold of non-overlapping in-bounds edits computes the
ascending simultaneous substitution. -/
lemma foldl_desc (l : List Edit) (text : List Char)
    (hpw : l.Pairwise (fun a b => b.endByte ≤ a.startByte))
    (hbound : ∀ e ∈ l, e.startByte ≤ e.endByte ∧ e.endByte ≤ text.length) :
    l.foldl spliceStep text = substFrom text 0 l.reverse := by
  induction l generalizing text with
  | nil => rfl
  | cons e rest ih =>
    rcases List.pairwise_cons.mp hpw with ⟨he, hrest⟩
    have heb := hbound e (by simp)
    have hlen : (spliceStep text e).length
        = e.startByte + e.content.length + (text.length - e.endByte) := by
      rw [spliceStep_eq]
      simp [List.length_take, List.length_drop]
      omega
    have hbound2 : ∀ x ∈ rest, x.startByte ≤ x.endByte ∧ x.endByte ≤ (spliceStep text e).length := by
      intro x hx
      have hxb := hbound x (by simp [hx])
      have hxe := he x hx
      constructor
      · exact hxb.1
      · rw [hlen]; omega
    have step : (e :: rest).foldl spliceStep text = rest.foldl spliceStep (spliceStep text e) := rfl
    rw [step, ih (spliceStep text e) hrest hbound2,
      substFrom_splice text e rest.reverse 0 (by omega) (by omega) ?side]
    · simp
    · intro x hx
      rw [List.mem_reverse] at hx
      exact ⟨(hbound x (by simp [hx])).1, he x hx⟩

/-- C6: `apply_edits` processes the given edits in descending start-byte order
and splices each replace/insert/remove at offsets of the original buffer;
consequently, for every set of pairwise non-overlapping edits with distinct
start bytes (here enumerated ascending as `edits`, with in-bounds ranges), the
result equals the original bytes with every edit's range substituted at its
original offsets (`substFrom`), independent of the order `edits2` in which the
edits were supplied. -/
theorem c6_edit_applicator_correct (text : List Char) (edits edits2 : List Edit)
    (hasc : edits.Pairwise (fun a b => a.endByte ≤ b.startByte ∧ a.startByte < b.startByte))
    (hbound : ∀ e ∈ edits, e.startByte ≤ e.endByte ∧ e.endByte ≤ text.length)
    (hperm : List.Perm edits2 edits) :
    apply_edits text edits2 = substFrom text 0 edits := by
  have hge := sortDesc_sorted edits2
  have hp1 : List.Perm (sortDesc edits2) edits := (sortDesc_perm edits2).trans hperm
  have hne : edits.Pairwise (fun a b => a.startByte ≠ b.startByte) :=
    hasc.imp (fun h => by omega)
  have hne2 : (sortDesc edits2).Pairwise (fun a b => a.startByte ≠ b.startByte) :=
    (hp1.pairwise_iff (fun hxy => Ne.symm hxy)).mpr hne
  have hgt : (sortDesc edits2).Pairwise (fun a b => b.startByte < a.startByte) :=
    (hge.and hne2).imp (fun h => by omega)
  have hrev : edits.reverse.Pairwise
      (fun a b => b.endByte ≤ a.startByte ∧ b.startByte < a.startByte) :=
    List.pairwise_reverse.mpr hasc
  have hgtrev : edits.reverse.Pairwise (fun a b => b.startByte < a.startByte) :=
    hrev.imp (fun h => h.2)
  have hp2 : List.Perm (sortDesc edits2) edits.reverse :=
    hp1.trans (List.reverse_perm edits).symm
  have heq : sortDesc edits2 = edits.reverse := strictDesc_eq _ _ hp2 hgt hgtrev
  show (sortDesc edits2).foldl spliceStep text = substFrom text 0 edits
  rw [heq, foldl_desc edits.reverse text (hrev.imp (fun h => h.1)) ?bounds,
    List.reverse_reverse]
  intro e he
  exact hbound e (List.mem_reverse.mp he)

/-- Witness for C6 at a concrete buffer and a shuffled pair of edits. -/
theorem c6_edit_applicator_correct_witness :
    apply_edits (lc "abcdef") [.remove 4 5, .replace 1 2 (lc "XY")]
        = substFrom (lc "abcdef") 0 [.replace 1 2 (lc "XY"), .remove 4 5]
      ∧ substFrom (lc "abcdef") 0 [.replace 1 2 (lc "XY"), .remove 4 5] = lc "aXYcdf" :=
  ⟨c6_edit_applicator_correct (lc "abcdef") [.replace 1 2 (lc "XY"), .remove 4 5]
      [.remove 4 5, .replace 1 2 (lc "XY")] (by decide) (by decide)
      (List.Perm.swap (Edit.replace 1 2 (lc "XY")) (Edit.remove 4 5) []),
    by decide⟩

/-! Edit-count lemmas: every operation other than `move` emits at most one
edit (each arm of the compilers yields exactly once), so its edit set is
trivially non-overlapping. A `move` concatenates the edits of a removal and an
addition at the same path, which can overlap. -/
lemma nonOverlap_of_short (es : List Edit) (h : es.length ≤ 1) : nonOverlapB es = true := by
  match es with
  | [] => rfl
  | [e] => rfl
  | a :: b :: rest => simp at h

lemma add_dispatch_len (parent : Cur) (key : String) (value : JSON) (es : List Edit)
    (h : add_dispatch parent key value = .ok es) : es.length ≤ 1 := by
  unfold add_dispatch at h
  simp only [bind, Except.bind, pure, Except.pure] at h
  repeat' split at h
  all_goals first
    | exact Except.noConfusion h
    | (injection h with h2; subst h2; simp)

lemma edit_add_len (root : Cur) (path : List String) (value : JSON) (es : List Edit)
    (h : edit_add root path value = .ok es) : es.length ≤ 1 := by
  unfold edit_add at h
  simp only [bind, Except.bind] at h
  repeat' split at h
  all_goals first
    | exact Except.noConfusion h
    | exact add_dispatch_len _ _ _ _ h

lemma edit_remove_len (root : Cur) (path : List String) (es : List Edit)
    (h : edit_remove root path = .ok es) : es.length ≤ 1 := by
  unfold edit_remove at h
  simp only [bind, Except.bind, pure, Except.pure] at h
  repeat' split at h
  all_goals first
    | exact Except.noConfusion h
    | (injection h with h2; subst h2; simp)

lemma edit_replace_len (root : Cur) (path : List String) (value : JSON) (es : List Edit)
    (h : edit_replace root path value = .ok es) : es.length ≤ 1 := by
  unfold edit_replace at h
  simp only [bind, Except.bind, pure, Except.pure] at h
  repeat' split at h
  all_goals first
    | exact Except.noConfusion h
    | (injection h with h2; subst h2; simp)

lemma edit_copy_len (root : Cur) (source path : List String) (es : List Edit)
    (h : edit_copy root source path = .ok es) : es.length ≤ 1 := by
  unfold edit_copy at h
  simp only [bind, Except.bind] at h
  repeat' split at h
  all_goals first
    | exact Except.noConfusion h
    | exact edit_add_len _ _ _ _ h

lemma edit_test_len (root : Cur) (path : List String) (value : JSON) (es : List Edit)
    (h : edit_test root path value = .ok es) : es.length ≤ 1 := by
  unfold edit_test at h
  simp only [bind, Except.bind] at h
  repeat' split at h
  all_goals first
    | exact Except.noConfusion h
    | (injection h with h2; subst h2; simp)

/-- C5 (amended): the edits emitted for a single non-`move` operation number
at most one and therefore have pairwise non-overlapping ranges with no insert
inside a replace/remove range; a `move`, which concatenates the edits of its
removal and its addition, violates the invariant (see the counterexample). -/
theorem c5_nonmove_op_edits_disjoint (root : Cur) (op : JSONPatchOperation) (es : List Edit)
    (hmv : opIsMove op = false)
    (h : edit_patch_operation root op = .ok es) :
    es.length ≤ 1 ∧ nonOverlapB es = true := by
  have hlen : es.length ≤ 1 := by
    cases op with
    | add path value => exact edit_add_len root path value es h
    | remove path => exact edit_remove_len root path es h
    | replace path value => exact edit_replace_len root path value es h
    | move source path => simp [opIsMove] at hmv
    | copy source path => exact edit_copy_len root source path es h
    | test path value => exact edit_test_len root path value es h
  exact ⟨hlen, nonOverlap_of_short es hlen⟩

/-- Witness for C5 at the sole-pair removal on `"a:\n  b: 1\n"`. -/
theorem c5_nonmove_op_edits_disjoint_witness :
    edit_patch_operation (rootCur docNested) (.remove ["a", "b"])
        = .ok [.replace 2 10 (lc " \x7b\x7d\n")]
      ∧ [Edit.replace 2 10 (lc " \x7b\x7d\n")].length ≤ 1
      ∧ nonOverlapB [Edit.replace 2 10 (lc " \x7b\x7d\n")] = true :=
  ⟨rfl, c5_nonmove_op_edits_disjoint (rootCur docNested) (.remove ["a", "b"])
    [Edit.replace 2 10 (lc " \x7b\x7d\n")] rfl rfl⟩

/-- Counterexample to C5 as stated: the single operation `move` from `/0` to
`/1` on the two-item sequence `"- 1\n- 2\n"` emits a removal over bytes
`[3, 7)` and an insert at byte 4, which falls strictly inside the removed
range — the non-overlap invariant fails for this operation's edit set. -/
theorem c5_counterexample :
    edit_patch (rootCur docSeq2) [.move ["0"] ["1"]]
        = .ok [.remove 3 7, .insert 4 (lc "- 2\n")]
      ∧ nonOverlapB [.remove 3 7, .insert 4 (lc "- 2\n")] = false :=
  ⟨rfl, by decide⟩

/-! Claim C4: atomicity of `apply_patch` on failure. -/
lemma edit_patch_first_failure (root : Cur) (ops1 : List JSONPatchOperation)
    (op : JSONPatchOperation) (ops2 : List JSONPatchOperation) (e : Err)
    (hok : ∀ o ∈ ops1, (edit_patch_operation root o).isOk = true)
    (hfail : edit_patch_operation root op = .error e) :
    edit_patch root (ops1 ++ op :: ops2) = .error e := by
  induction ops1 with
  | nil => simp [edit_patch, hfail, bind, Except.bind]
  | cons o rest ih =>
    have ho := hok o (by simp)
    have hrest : ∀ o2 ∈ rest, (edit_patch_operation root o2).isOk = true :=
      fun o2 h2 => hok o2 (by simp [h2])
    cases h2 : edit_patch_operation root o with
    | error e2 => rw [h2] at ho; simp [Except.isOk, Except.toBool] at ho
    | ok es =>
      show edit_patch root (o :: (rest ++ op :: ops2)) = .error e
      simp [edit_patch, h2, bind, Except.bind, ih hrest]

/-! Claim C2: `move` and `copy` source reading. -/
/-- Evaluation of the code at the C2 failing input: on `"a: 1\nb: 2\n"`, the
operation copy from `/a` to `/b` materializes the value read at `path`
(`/b`, the integer 2) rather than at `from` (`/a`, the integer 1), and move
from `/a` to `/b` removes the node at `path` (`/b`, bytes `[5, 9)`) rather
than at `from`, then re-adds the `path` value. -/
theorem c2_move_copy_read_path :
    parse_node (rootCur docMap2) = .ok (jobj [("a", .int 1), ("b", .int 2)])
      ∧ edit_copy (rootCur docMap2) ["a"] ["b"] = .ok [.insert 10 (lc "b: 2\n")]
      ∧ edit_move (rootCur docMap2) ["a"] ["b"]
          = .ok [.remove 5 9, .insert 10 (lc "b: 2\n")] :=
  ⟨rfl, rfl, rfl⟩

/-! Claim C8: empty-pointer handling in `JSONPointer.parse`. -/
/-- Evaluation of the code at the C8 failing input: parsing the empty pointer
text raises `ValueError` (the code requires every pointer, the empty one
included, to start with `/`), while non-empty texts without a leading slash
also fail and slash-led texts parse to their unescaped segments. -/
theorem c8_pointer_parse_empty :
    JSONPointer.parse "" = .error (.valueError "Invalid JSON pointer ")
      ∧ JSONPointer.parse "a" = .error (.valueError "Invalid JSON pointer a")
      ∧ JSONPointer.parse "/a/~1b/~01" = .ok ["a", "/b", "~1"]
      ∧ JSONPointer.parse "/" = .ok [""] :=
  ⟨rfl, rfl, rfl, rfl⟩

/-! Claim C9: `add` into a flow sequence. -/
/-- C9 (amended): for an `add` whose target parent is a `flow_sequence` in a
tree using the grammar vocabulary (which has no `flow_sequence_item` node
type, so the sibling query is empty), an index of 0 (or below) inserts the
value's flow serialization immediately after the opening bracket with no
prefix, and every index greater than 0 fails with an `IndexError` instead of
inserting after the preceding item. -/
theorem c9_flow_sequence_add (parent : Cur) (key : String) (value : JSON) (i : Int)
    (hty : parent.nodeType = "flow_sequence")
    (hkids : parent.children.all (fun x => !(x.nodeType == "flow_sequence_item")) = true)
    (hk : pyInt key = .ok i) :
    (i ≤ 0 → add_dispatch parent key value
        = .ok [.insert (parent.startByte + 1) (stringify_flow value)])
      ∧ (0 < i → add_dispatch parent key value = .error .indexError) := by
  have hsib : typeFilter "flow_sequence_item" parent.children = [] := by
    rw [List.all_eq_true] at hkids
    simp only [typeFilter, List.filter_eq_nil_iff]
    intro x hx
    simpa using hkids x hx
  unfold add_dispatch
  rw [hty]
  simp only [bind, Except.bind, hk, hsib]
  constructor
  · intro hle
    rw [if_neg (by omega)]
  · intro hlt
    rw [if_pos (by omega)]
    have : ¬(i < 0) := by omega
    simp [pyGetItem, this]

/-- Witness for C9 at the flow sequence of `"a: [1, 2]\n"`: index 0 inserts
`3` right after the `[` at byte 3; index 1 raises `IndexError`. -/
theorem c9_flow_sequence_add_witness :
    add_dispatch ⟨docFlow, [0, 0, 0, 0, 2, 0]⟩ "0" (.int 3) = .ok [.insert 4 (lc "3")]
      ∧ add_dispatch ⟨docFlow, [0, 0, 0, 0, 2, 0]⟩ "1" (.int 3) = .error .indexError :=
  ⟨(c9_flow_sequence_add ⟨docFlow, [0, 0, 0, 0, 2, 0]⟩ "0" (.int 3) 0 rfl (by decide) rfl).1
      (by omega),
    (c9_flow_sequence_add ⟨docFlow, [0, 0, 0, 0, 2, 0]⟩ "1" (.int 3) 1 rfl (by decide) rfl).2
      (by omega)⟩

/-- Counterexample to C9 as stated: adding at index 1 of the flow sequence in
`"a: [1, 2]\n"` does not insert `", 3"` after the item at index 0 — the whole
operation (and the whole patch) fails with `IndexError`, because the sibling
query filters for the nonexistent type `flow_sequence_item` and the code then
indexes `siblings[index]` into the empty list. -/
theorem c9_counterexample :
    edit_add (rootCur docFlow) ["a", "1"] (.int 3) = .error .indexError
      ∧ apply_patch docFlow [.add ["a", "1"] (.int 3)] = .error .indexError :=
  ⟨rfl, rfl⟩

/-! Claim C10: serializer partiality on the empty string. -/
/-- C10: the block serializers succeed on every non-empty string value (every
guard and arm then yields a result), but on the empty string the multiline
guard evaluates `value[-1]` and both raise `IndexError`; consequently
`apply_patch` with an `add` whose value is the empty string fails instead of
producing a document. -/
theorem c10_empty_string_serializer_partial (k s : String) (h : s ≠ "") :
    (stringify_block_mapping_pair k (.str s)).isOk = true
      ∧ (stringify_block_sequence_item (.str s)).isOk = true
      ∧ stringify_block_mapping_pair k (.str "") = .error .indexError
      ∧ stringify_block_sequence_item (.str "") = .error .indexError
      ∧ apply_patch docMap2 [.add ["c"] (.str "")] = .error .indexError := by
  have hne : s.data ≠ [] := by
    intro hd
    exact h (String.ext (hd.trans rfl))
  have hempty : s.data.isEmpty = false := by
    cases hd : s.data with
    | nil => exact absurd hd hne
    | cons a t => rfl
  refine ⟨?_, ?_, rfl, rfl, rfl⟩
  · simp only [stringify_block_mapping_pair, hempty]
    repeat' split
    all_goals first
      | rfl
      | simp_all
  · simp only [stringify_block_sequence_item, hempty]
    repeat' split
    all_goals first
      | rfl
      | simp_all

/-- Witness for C10 at the one-character string `"x"`. -/
theorem c10_empty_string_serializer_partial_witness :
    (stringify_block_mapping_pair "k" (.str "x")).isOk = true
      ∧ (stringify_block_sequence_item (.str "x")).isOk = true
      ∧ stringify_block_mapping_pair "k" (.str "") = .error .indexError
      ∧ stringify_block_sequence_item (.str "") = .error .indexError
      ∧ apply_patch docMap2 [.add ["c"] (.str "")] = .error .indexError :=
  c10_empty_string_serializer_partial "k" "x" (by decide)

/-- Counterexample to C1 as stated: on `"a: 1\nb: 2\n"` (which the value
reader decodes to `{"a": 1, "b": 2}`) the patch `[copy from=/a path=/c]` is
defined for the reference application — it yields `{"a": 1, "b": 2, "c": 1}`
— yet `apply_patch` raises `KeyError` instead of producing a document with
that decoding, because `edit_copy` materializes the value at `path` (`/c`,
which does not exist) instead of at `from`. -/
theorem c1_counterexample :
    refApply (jobj [("a", .int 1), ("b", .int 2)]) [.copy ["a"] ["c"]]
        = some (jobj [("a", .int 1), ("b", .int 2), ("c", .int 1)])
      ∧ parse_node (rootCur docMap2) = .ok (jobj [("a", .int 1), ("b", .int 2)])
      ∧ apply_patch docMap2 [.copy ["a"] ["c"]] = .error .keyError :=
  ⟨rfl, rfl, rfl⟩

/-- C1 (amended): the universal pipeline property fails for `move`/`copy`
operations (see the counterexample); the claim's concrete instance holds:
applying `[remove /a/b]` to `"a:\n  b: 1\n"` produces exactly the text
`"a: \x7b\x7d\n"`, whose parse (the `docEmptyMap` fixture) the value reader —
the spec's faithful reader for the supported subset — decodes to
`{"a": \x7b\x7d}`, in agreement with the reference application of the same
patch to the decoded input. -/
theorem c1_remove_sole_pair_instance :
    apply_patch docNested [.remove ["a", "b"]] = .ok (lc "a: \x7b\x7d\n")
      ∧ parse_node (rootCur docEmptyMap) = .ok (jobj [("a", jobj [])])
      ∧ parse_node (rootCur docNested) = .ok (jobj [("a", jobj [("b", .int 1)])])
      ∧ refApply (jobj [("a", jobj [("b", .int 1)])]) [.remove ["a", "b"]]
          = some (jobj [("a", jobj [])]) :=
  ⟨rfl, rfl, rfl, rfl⟩

lemma splitFirstNl_append (hdr t : List Char) (h : '\n' ∉ hdr) :
    splitFirstNl (hdr ++ '\n' :: t) = some (hdr, t) := by
  induction hdr with
  | nil => simp [splitFirstNl]
  | cons c cs ih =>
    have hc : (c == '\n') = false := by
      simp only [List.mem_cons, not_or] at h
      simp only [beq_eq_false_iff_ne]
      exact fun hcc => h.1 hcc.symm
    have hcs : '\n' ∉ cs := fun m => h (by simp [m])
    simp [splitFirstNl, hc, ih hcs]

lemma not_cr_of_not_break (c : Char) (hc : isLineBreak c = false) :
    (c == '\x0d') = false := by
  cases hb : c == '\x0d'
  · rfl
  · exfalso
    unfold isLineBreak at hc
    rw [hb] at hc
    simp at hc

lemma splitlinesPy_no_break (l : List Char) (hl : l ≠ [])
    (h : ∀ c ∈ l, isLineBreak c = false) : splitlinesPy l = [l] := by
  induction l with
  | nil => exact absurd rfl hl
  | cons c cs ih =>
    have hc := h c (by simp)
    have hcr := not_cr_of_not_break c hc
    cases cs with
    | nil => simp [splitlinesPy, hcr, hc]
    | cons d ds =>
      have ih2 := ih (by simp) (fun x hx => h x (by simp [hx]))
      simp only [splitlinesPy, hcr, hc]
      simp [ih2]

lemma splitlinesPy_append (l t : List Char) (h : ∀ c ∈ l, isLineBreak c = false) :
    splitlinesPy (l ++ '\n' :: t) = l :: splitlinesPy t := by
  induction l with
  | nil =>
    show splitlinesPy ('\n' :: t) = [] :: splitlinesPy t
    cases t with
    | nil => decide
    | cons a t2 =>
      have h1 : ('\n' == '\x0d') = false := by decide
      have h2 : isLineBreak '\n' = true := by decide
      simp [splitlinesPy, h1, h2]
  | cons c cs ih =>
    have hc := h c (by simp)
    have hcr := not_cr_of_not_break c hc
    have ih2 := ih (fun x hx => h x (by simp [hx]))
    show splitlinesPy (c :: (cs ++ '\n' :: t)) = (c :: cs) :: splitlinesPy t
    cases cs with
    | nil =>
      simp only [List.nil_append] at ih2 ⊢
      simp [splitlinesPy, hcr, hc, ih2]
    | cons d ds =>
      simp only [List.cons_append] at ih2 ⊢
      simp [splitlinesPy, hcr, hc, ih2]

lemma splitlinesPy_joinNl (M : List (List Char)) (hM : M ≠ [])
    (hlines : ∀ l ∈ M, ∀ c ∈ l, isLineBreak c = false)
    (hlast : M.getLast? ≠ some []) :
    splitlinesPy (joinNl M) = M := by
  match M, hM with
  | [l], _ =>
    show splitlinesPy l = [l]
    have hl : l ≠ [] := by
      intro he
      exact hlast (by simp [he])
    exact splitlinesPy_no_break l hl (hlines l (by simp))
  | l :: l2 :: M2, _ =>
    have hlines2 : ∀ x ∈ l2 :: M2, ∀ c ∈ x, isLineBreak c = false :=
      fun x hx => hlines x (by simp [hx])
    have hlast2 : (l2 :: M2).getLast? ≠ some [] := by
      rwa [List.getLast?_cons_cons] at hlast
    show splitlinesPy (l ++ '\n' :: joinNl (l2 :: M2)) = l :: (l2 :: M2)
    rw [splitlinesPy_append l _ (hlines l (by simp)),
      splitlinesPy_joinNl (l2 :: M2) (by simp) hlines2 hlast2]

lemma takeWhile_ws_prefix (ind rest : List Char) (hind : ∀ c ∈ ind, isPyWs c = true)
    (hrest : isPyWs (rest.headD 'x') = false) :
    (ind ++ rest).takeWhile isPyWs = ind := by
  induction ind with
  | nil =>
    cases rest with
    | nil => rfl
    | cons c t => simp only [List.nil_append, List.takeWhile_cons]; simp_all
  | cons c cs ih =>
    have hc := hind c (by simp)
    simp only [List.cons_append, List.takeWhile_cons, hc]
    simp [ih (fun d hd => hind d (by simp [hd]))]

lemma headD_append (l rest : List Char) (d : Char) :
    (l ++ rest).headD d = if l.isEmpty then rest.headD d else l.headD d := by
  cases l <;> rfl

lemma takeWhile_body (ind : List Char) (L : List (List Char)) (hL : L ≠ [])
    (hind : ∀ c ∈ ind, isPyWs c = true)
    (hhead : isPyWs ((L.headD []).headD 'x') = false) :
    (joinNl (L.map (fun l => ind ++ l))).takeWhile isPyWs = ind := by
  match L, hL with
  | [l0], _ =>
    show (ind ++ l0).takeWhile isPyWs = ind
    exact takeWhile_ws_prefix ind l0 hind (by simpa using hhead)
  | l0 :: l1 :: L2, _ =>
    show ((ind ++ l0) ++ '\n' :: joinNl ((l1 :: L2).map (fun l => ind ++ l))).takeWhile isPyWs
      = ind
    rw [List.append_assoc]
    apply takeWhile_ws_prefix ind _ hind
    rw [headD_append]
    cases l0 with
    | nil => simp [isPyWs]
    | cons c t => simpa using hhead

lemma map_removeprefix (ind : List Char) (L : List (List Char)) :
    (L.map (fun l => ind ++ l)).map (removeprefixPy ind) = L := by
  rw [List.map_map]
  have h : (removeprefixPy ind ∘ fun l => ind ++ l) = id := by
    funext l
    show removeprefixPy ind (ind ++ l) = l
    unfold removeprefixPy
    rw [if_pos (by simp), List.drop_left]
  simp [h]

lemma headerMatch_nodash (sc : Char) (hdr body : List Char)
    (hsc : sc = '|' ∨ sc = '>') (hh : '\n' ∉ hdr) (hd1 : hdr.headD 'x' ≠ '-') :
    headerMatch (sc :: (hdr ++ '\n' :: body))
      = some ([sc], body.takeWhile isPyWs, body) := by
  have hsc2 : (sc == '\\' || sc == '|' || sc == '>') = true := by
    rcases hsc with h | h <;> simp [h]
  cases hdr with
  | nil =>
    simp [headerMatch, hsc2, splitFirstNl]
  | cons a t =>
    have ha : (a == '-') = false := by
      simp only [beq_eq_false_iff_ne]
      simpa using hd1
    simp only [headerMatch, hsc2, ha, List.cons_append, Bool.false_eq_true, if_false, if_true]
    rw [← List.cons_append, splitFirstNl_append _ _ hh]

lemma headerMatch_dash (sc : Char) (hdr body : List Char)
    (hsc : sc = '|' ∨ sc = '>') (hh : '\n' ∉ hdr) :
    headerMatch (sc :: '-' :: (hdr ++ '\n' :: body))
      = some ([sc, '-'], body.takeWhile isPyWs, body) := by
  have hsc2 : (sc == '\\' || sc == '|' || sc == '>') = true := by
    rcases hsc with h | h <;> simp [h]
  simp [headerMatch, hsc2, splitFirstNl_append _ _ hh]

/-- C7 (amended): the decoder matches the first line against the source's
header pattern `^([\\|>]-?)[^\n]*\n([ \t]*)` — not the spec's literal
alternation, see the counterexample — strips the captured indentation from
every line, and then joins: `|` with newlines plus a trailing newline, `|-`
with newlines and none, `>` with single spaces plus a trailing newline, `>-`
with single spaces and none; a block whose header does not match the pattern
fails with a `ValueError`. Stated over any header rest `hdr` (newline-free,
and for the one-character styles not starting with `-`, which the greedy `-?`
would absorb), any horizontal indentation `ind`, and any line list `L` free of
the line-break characters of `str.splitlines` whose first line does not extend
the indentation and whose last line is not empty after indentation. -/
theorem c7_block_scalar_decoding (hdr ind : List Char) (L : List (List Char))
    (hhdr : '\n' ∉ hdr) (hdash : hdr.headD 'x' ≠ '-')
    (hL : L ≠ []) (hlines : ∀ l ∈ L, ∀ c ∈ l, isLineBreak c = false)
    (hind : ∀ c ∈ ind, isPyWs c = true)
    (hhead : isPyWs ((L.headD []).headD 'x') = false)
    (hlast : ind ++ (L.getLast?.getD []) ≠ []) :
    (parse_scalar_block ('|' :: (hdr ++ '\n' :: joinNl (L.map (fun l => ind ++ l))))
        = .ok (List.intercalate (lc "\n") L ++ lc "\n"))
      ∧ (parse_scalar_block ('|' :: '-' :: (hdr ++ '\n' :: joinNl (L.map (fun l => ind ++ l))))
          = .ok (List.intercalate (lc "\n") L))
      ∧ (parse_scalar_block ('>' :: (hdr ++ '\n' :: joinNl (L.map (fun l => ind ++ l))))
          = .ok (List.intercalate (lc " ") L ++ lc "\n"))
      ∧ (parse_scalar_block ('>' :: '-' :: (hdr ++ '\n' :: joinNl (L.map (fun l => ind ++ l))))
          = .ok (List.intercalate (lc " ") L))
      ∧ (∀ block, headerMatch block = none
          → parse_scalar_block block = .error (.valueError "Invalid block scalar")) := by
  have hind_nb : ∀ c ∈ ind, isLineBreak c = false := by
    intro c hcm
    have hw := hind c hcm
    simp [isPyWs] at hw
    rcases hw with h | h <;> subst h <;> decide
  have hlinesM : ∀ x ∈ L.map (fun l => ind ++ l), ∀ c ∈ x, isLineBreak c = false := by
    intro x hx c hc
    rcases List.mem_map.mp hx with ⟨l, hl, rfl⟩
    rcases List.mem_append.mp hc with h | h
    · exact hind_nb c h
    · exact hlines l hl c h
  have hlastM : (L.map (fun l => ind ++ l)).getLast? ≠ some [] := by
    rw [List.getLast?_map]
    cases hgl : L.getLast? with
    | none => simp
    | some ll =>
      rw [hgl] at hlast
      intro he
      simp only [Option.map] at he
      exact hlast (by simpa using he)
  have hMne : L.map (fun l => ind ++ l) ≠ [] := by
    simp [hL]
  have htw := takeWhile_body ind L hL hind hhead
  have hsplit := splitlinesPy_joinNl (L.map (fun l => ind ++ l)) hMne hlinesM hlastM
  refine ⟨?_, ?_, ?_, ?_, ?_⟩
  · unfold parse_scalar_block
    rw [headerMatch_nodash '|' hdr _ (Or.inl rfl) hhdr hdash, htw]
    simp only [hsplit, map_removeprefix]
    rfl
  · unfold parse_scalar_block
    rw [headerMatch_dash '|' hdr _ (Or.inl rfl) hhdr, htw]
    simp only [hsplit, map_removeprefix]
    rfl
  · unfold parse_scalar_block
    rw [headerMatch_nodash '>' hdr _ (Or.inr rfl) hhdr hdash, htw]
    simp only [hsplit, map_removeprefix]
    rfl
  · unfold parse_scalar_block
    rw [headerMatch_dash '>' hdr _ (Or.inr rfl) hhdr, htw]
    simp only [hsplit, map_removeprefix]
    rfl
  · intro block hb
    unfold parse_scalar_block
    rw [hb]

/-- Witness for C7 at the two lines `x`, `y` under a two-space indentation,
for all four styles, plus a headerless block. -/
theorem c7_block_scalar_decoding_witness :
    parse_scalar_block (lc "|\n  x\n  y") = .ok (lc "x\ny\n")
      ∧ parse_scalar_block (lc "|-\n  x\n  y") = .ok (lc "x\ny")
      ∧ parse_scalar_block (lc ">\n  x\n  y") = .ok (lc "x y\n")
      ∧ parse_scalar_block (lc ">-\n  x\n  y") = .ok (lc "x y")
      ∧ parse_scalar_block (lc "abc") = .error (.valueError "Invalid block scalar") := by
  have h := c7_block_scalar_decoding [] (lc "  ") [lc "x", lc "y"] (by decide) (by decide)
    (by decide) (by decide) (by decide) (by decide) (by decide)
  exact ⟨h.1, h.2.1, h.2.2.1, h.2.2.2.1, h.2.2.2.2 (lc "abc") rfl⟩

/-- Counterexample to C7 as stated: the block `"> a\n b"` does not match the
spec's stated header pattern (none of `||>`, `|-`, `>-` starts it), so by the
claim it would have to fail with a structural error; the decoder instead
accepts it — the source's pattern `[\\|>]-?` matches a bare `>` — and folds it
to `"b\n"`. -/
theorem c7_counterexample :
    specHeaderMatches (lc "> a\n b") = false
      ∧ parse_scalar_block (lc "> a\n b") = .ok (lc "b\n") :=
  ⟨by decide, rfl⟩

example : apply_patch docSeqInMap [.remove ["a", "0"]] = .ok (lc "a: []\n") := rfl
example : parse_node (rootCur docSeqInMap) = .ok (jobj [("a", jarr [.int 1])]) := rfl
set_option maxHeartbeats 2000000 in
example : apply_patch docComment [.replace ["a"] (.int 2)] = .ok (lc "a: 2 # keep\n") := rfl
set_option maxHeartbeats 2000000 in
example : apply_patch docNested [.replace ["a", "b"] (.int 2)] = .ok (lc "a:\n  b: 2\n") := rfl
set_option maxHeartbeats 2000000 in
example : apply_patch docMap2 [.add ["c"] (.int 3)] = .ok (lc "a: 1\nb: 2\nc: 3\n") := rfl
set_option maxHeartbeats 2000000 in
example : apply_patch docNested [.replace ["a", "b"] (.str "one\ntwo\n")]
    = .ok (lc "a:\n  b: |\n    one\n    two\n") := rfl
